import Mathlib

/-!
# ft_vox profiler: a verification development of `srcs/classes/Profiler.cpp`

The embedding follows the two classes of the source file:

* `ProfilerObject` (one sample recorder): `StartTracking`, `StopTracking`, `LogData`;
* `Profiler` (static registry, persistence flag and LMDB handle): `StartTracking`,
  `StopTracking`, `LogData`, `InsertData`, `RetrieveData`, `SetSaveOn`.

Conventions of the embedding.

* `std::chrono::nanoseconds` is a signed 64-bit tick count: an `Int`, with `wrap64` applied
  where the source adds or subtracts tick counts.
* `double` is IEEE-754 binary64 with round-to-nearest, ties-to-even.  A finite double is the
  rational number it denotes and every operation rounds its exact result with
  `roundDouble`.  The exponent range is not modelled: all values that occur are quotients,
  differences and products of 64-bit integers and stay far inside the normal range.  An
  operation whose IEEE result is an infinity or a NaN (division by zero) yields `none`.
* A `const char *` is the list of its `char`s (no NUL inside).
* LMDB is an external library; its unnamed database is a finite map from keys to values.
* The clock, the console and the log file are explicit: clock readings are arguments and
  every output or database access is appended to a chronological trace.
-/

/-! ## Machine integers -/

/-- Two-complement reduction of an integer to the signed 64-bit range. -/
def wrap64 (x : Int) : Int := (x + 2 ^ 63) % 2 ^ 64 - 2 ^ 63

/-- Values a `long` (the rep of `std::chrono::nanoseconds`) can hold. -/
def inInt64 (x : Int) : Prop := -2 ^ 63 ≤ x ∧ x < 2 ^ 63

instance (x : Int) : Decidable (inInt64 x) := by unfold inInt64; infer_instance

/-! ## IEEE-754 binary64 arithmetic -/

/-- Round a rational to the nearest integer, ties to the even integer. -/
def roundHalfEven (x : ℚ) : ℤ :=
  let f := ⌊x⌋
  let r := x - f
  if r < 1 / 2 then f
  else if 1 / 2 < r then f + 1
  else if f % 2 = 0 then f else f + 1

/-- The binary64 value nearest to `x` (ties to even): with `e` the binary exponent of `x`,
the significand `x / 2 ^ (e - 52)` lies in `[2 ^ 52, 2 ^ 53)` and is rounded to an integer. -/
def roundDouble (x : ℚ) : ℚ :=
  if x = 0 then 0
  else
    let u : ℚ := (2 : ℚ) ^ (Int.log 2 |x| - 52)
    (roundHalfEven (x / u) : ℚ) * u

/-- Conversion `static_cast<double>(n)` of a 64-bit integer. -/
def doubleOfInt (n : Int) : ℚ := roundDouble (n : ℚ)

/-- Double division `x / y`; `none` when the IEEE result is not finite (`y = 0`). -/
def doubleDiv (x y : ℚ) : Option ℚ := if y = 0 then none else some (roundDouble (x / y))

/-- Double subtraction `x - y`. -/
def doubleSub (x y : ℚ) : ℚ := roundDouble (x - y)

/-- Double multiplication `x * y`. -/
def doubleMul (x y : ℚ) : ℚ := roundDouble (x * y)

/-- Conversion `(size_t)x` of a non-negative double: truncation. -/
def sizeOfDouble (x : ℚ) : Nat := ⌊x⌋.toNat

/-- The literal `0.95` as the compiler converts it. -/
def double_0_95 : ℚ := roundDouble (95 / 100)

/-- The literal `0.05` as the compiler converts it. -/
def double_0_05 : ℚ := roundDouble (5 / 100)

/-! ## C strings, `std::to_string` and `atol` -/

/-- A NUL-terminated `const char *`: the list of its characters. -/
abbrev CStr := List Char

/-- The decimal digit character of a number below ten. -/
def digitChar (d : Nat) : Char := Char.ofNat (48 + d)

/-- Decimal digits of `n`, most significant first, prepended to `acc`. -/
def natToDecimal : Nat → Nat → CStr → CStr
  | 0, _, acc => acc
  | fuel + 1, n, acc =>
    if n < 10 then digitChar n :: acc
    else natToDecimal fuel (n / 10) (digitChar (n % 10) :: acc)

/-- The function `std::to_string(long)`. -/
def to_string (v : Int) : CStr :=
  if v < 0 then '-' :: natToDecimal (v.natAbs + 1) v.natAbs []
  else natToDecimal (v.natAbs + 1) v.natAbs []

/-- The predicate `isspace` in the C locale. -/
def isSpaceC (c : Char) : Bool := c.toNat = 32 || (9 ≤ c.toNat && c.toNat ≤ 13)

/-- Value of the longest prefix of decimal digits, continuing from `acc`. -/
def parseDigits : CStr → Nat → Nat
  | [], acc => acc
  | c :: cs, acc =>
    if 48 ≤ c.toNat ∧ c.toNat ≤ 57 then parseDigits cs (acc * 10 + (c.toNat - 48)) else acc

/-- Saturation of `strtol` at `LONG_MIN` and `LONG_MAX`. -/
def clampLong (x : Int) : Int :=
  if x < -2 ^ 63 then -2 ^ 63 else if 2 ^ 63 - 1 < x then 2 ^ 63 - 1 else x

/-- The function `atol`: leading white space, an optional sign, decimal digits. -/
def atol (s : CStr) : Int :=
  match s.dropWhile isSpaceC with
  | '-' :: r => clampLong (-(parseDigits r 0 : Int))
  | '+' :: r => clampLong (parseDigits r 0 : Int)
  | r => clampLong (parseDigits r 0 : Int)

/-! ## The LMDB database -/

/-- Content of the unnamed LMDB database: at most one value per key. -/
abbrev Store := List (CStr × CStr)

/-- Return codes of `mdb_get` and `mdb_put` other than success. -/
inductive MdbError
  | notFound
  | badValSize
  deriving DecidableEq, Repr

/-- LMDB accepts keys of 1 to 511 bytes. -/
def validKey (key : CStr) : Bool := decide (0 < key.length) && decide (key.length ≤ 511)

/-- The value stored under `key`, if any. -/
def Store.find : Store → CStr → Option CStr
  | [], _ => none
  | (k, v) :: rest, key => if k = key then some v else Store.find rest key

/-- The call `mdb_get`. -/
def mdb_get (db : Store) (key : CStr) : Except MdbError CStr :=
  if validKey key then
    match db.find key with
    | some v => .ok v
    | none => .error .notFound
  else .error .badValSize

/-- The store with `value` under `key`, any earlier entry for `key` removed. -/
def Store.insert (db : Store) (key value : CStr) : Store :=
  (key, value) :: db.filter (fun e => decide (e.1 ≠ key))

/-- The call `mdb_put` with flags `0` followed by a commit: insert or overwrite. -/
def mdb_put (db : Store) (key value : CStr) : Except MdbError Store :=
  if validKey key then .ok (db.insert key value) else .error .badValSize

/-! ## Program state -/

/-- One entry of the chronological trace of outputs and database accesses. -/
inductive Event
  /-- The region header written to `std::cout`. -/
  | header (name : CStr)
  /-- A metric line written to `std::cout`: label, scaled value, unit, and the sign and
  percentage when a baseline was found (`none` for a non-finite percentage). -/
  | metric (label : CStr) (value : ℚ) (unit : String) (cmp : Option (String × Option ℚ))
  /-- The line `[key] Key not found in LMDB` written with `printf`. -/
  | keyNotFound (key : CStr)
  /-- The line `Error retrieving data from LMDB` written to `stderr`. -/
  | retrieveError (rc : MdbError)
  /-- A call of `mdb_get`. -/
  | dbGet (key : CStr)
  /-- A call of `mdb_put`. -/
  | dbPut (key value : CStr)
  deriving DecidableEq

/-- Static state of class `Profiler` apart from the registry: the persistence flag, the
database behind `env` and `dbi`, and the trace. -/
structure Statics where
  isSaveOn : Bool
  db : Store
  trace : List Event
  deriving DecidableEq

/-- A `const char *` value: the address held and the string found there. -/
structure CharPtr where
  addr : Nat
  str : CStr
  deriving DecidableEq

/-- Class `ProfilerObject`. -/
structure ProfilerObject where
  name : CStr
  isTracking : Bool
  startTime : Int
  data : List Int
  deriving DecidableEq

/-- Class `Profiler`: the registry `data`, keyed by the address of the name, in iteration
order, and the remaining static members. -/
structure Profiler where
  data : List (Nat × ProfilerObject)
  statics : Statics
  deriving DecidableEq

/-! ## `ProfilerObject` -/

/-- Modelled from the spec: the member initialisers of `ProfilerObject` are declared in
`Profiler.hpp`, which is absent; a recorder is created with no sample and not tracking. -/
def ProfilerObject.new (name : CStr) : ProfilerObject :=
  { name := name, isTracking := false, startTime := 0, data := [] }

/-- Method `ProfilerObject::StartTracking`; `now` is the clock reading. -/
def ProfilerObject.StartTracking (self : ProfilerObject) (now : Int) : ProfilerObject :=
  if !self.isTracking then { self with startTime := now, isTracking := true } else self

/-- Method `ProfilerObject::StopTracking`; `now` is the clock reading. -/
def ProfilerObject.StopTracking (self : ProfilerObject) (now : Int) : ProfilerObject :=
  if self.isTracking then
    { self with data := self.data ++ [wrap64 (now - self.startTime)], isTracking := false }
  else self

/-- The call `std::sort(data.begin(), data.end())`.  The standard fixes the result only as
an ascending permutation of the input; on integers that determines it. -/
def stdSort (data : List Int) : List Int := data.insertionSort (· ≤ ·)

/-- The statistics `LogData` computes. -/
structure Stats where
  average : Int
  median : Int
  worst : Int
  worst5percent : Int
  best : Int
  best5percent : Int
  deriving DecidableEq, Repr

/-- Index `(size_t)(p * dataSize)` of a percentile sample. -/
def percentileIndex (p : ℚ) (dataSize : Nat) : Nat :=
  sizeOfDouble (doubleMul p (doubleOfInt dataSize))

/-- The median of line 47, on sorted data. -/
def medianOf (data : List Int) : Int :=
  let dataSize := data.length
  if dataSize % 2 = 0 then
    Int.tdiv (wrap64 (data.getD (dataSize / 2 - 1) 0 + data.getD (dataSize / 2) 0)) 2
  else data.getD (dataSize / 2) 0

/-- The average of lines 53 to 56: the running 64-bit sum divided by the sample count. -/
def averageOf (data : List Int) : Int :=
  Int.tdiv (data.foldl (fun acc v => wrap64 (acc + v)) 0) data.length

/-- Lines 45 to 56 of `LogData`, on the sorted data. -/
def computeStats (data : List Int) : Stats :=
  { average := averageOf data
    median := medianOf data
    worst := data.getLastD 0
    worst5percent := data.getD (percentileIndex double_0_95 data.length) 0
    best := data.headD 0
    best5percent := data.getD (percentileIndex double_0_05 data.length) 0 }

/-- Lines 58 to 71: the unit and the divider, from the worst sample. -/
def selectUnit (worst : Int) : String × Nat :=
  if worst < 1000 then (" ns", 1)
  else if worst < 1000000 then (" μs", 1000)
  else if worst < 1000000000 then (" ms", 1000000)
  else (" s", 1000000000)

/-! ## `Profiler`: the baseline store -/

/-- The key `snprintf(key, sizeof(key), "%s%s", keyName, keyType)` leaves in the 256-byte
buffer: at most 255 characters of the concatenation. -/
def makeKey (keyName keyType : CStr) : CStr := (keyName ++ keyType).take 255

/-- Method `Profiler::InsertData`; `none` when an assertion on an LMDB return code fails. -/
def Profiler.InsertData (st : Statics) (keyName keyType value : CStr) : Option Statics :=
  if !st.isSaveOn then some st
  else
    let key := makeKey keyName keyType
    match mdb_put st.db key value with
    | .ok db => some { st with db := db, trace := st.trace ++ [Event.dbPut key value] }
    | .error _ => none

/-- Method `Profiler::RetrieveData`: the value found, or `none` for a null pointer. -/
def Profiler.RetrieveData (st : Statics) (keyName keyType : CStr) : Option CStr × Statics :=
  let key := makeKey keyName keyType
  match mdb_get st.db key with
  | .ok v => (some v, { st with trace := st.trace ++ [Event.dbGet key] })
  | .error .notFound =>
    (none, { st with trace := st.trace ++ [Event.dbGet key, Event.keyNotFound key] })
  | .error rc =>
    (none, { st with trace := st.trace ++ [Event.dbGet key, Event.retrieveError rc] })

/-- Method `Profiler::SetSaveOn`. -/
def Profiler.SetSaveOn (st : Statics) : Statics := { st with isSaveOn := true }

/-! ## The regression reporter -/

/-- The percentage of lines 79 and 80. -/
def resultValue (current dbValue : Int) : Option ℚ :=
  (doubleDiv (doubleOfInt current) (doubleOfInt dbValue)).map fun q =>
    if current < dbValue then doubleMul (doubleSub 1 q) 100
    else doubleMul (doubleSub q 1) 100

/-- The sign of line 81. -/
def signOf (current dbValue : Int) : String := if current < dbValue then " -" else " +"

/-- The value `current.count() / divider` shown on a metric line. -/
def shownValue (current : Int) (divider : Nat) : ℚ :=
  roundDouble (doubleOfInt current / (divider : ℚ))

/-- The lambda `printWithComparison` of lines 76 to 87. -/
def printWithComparison (name : CStr) (unit : String) (divider : Nat) (st : Statics)
    (label : CStr) (current : Int) : Option Statics :=
  let (value, st1) := Profiler.RetrieveData st name label
  let line :=
    match value with
    | some v =>
      let dbValue := atol v
      Event.metric label (shownValue current divider) unit
        (some (signOf current dbValue, resultValue current dbValue))
    | none => Event.metric label (shownValue current divider) unit none
  Profiler.InsertData { st1 with trace := st1.trace ++ [line] } name label (to_string current)

/-- The six metric labels. -/
def labelAverage : CStr := "Average".toList

/-- Label of the median line. -/
def labelMedian : CStr := "Median".toList

/-- Label of the worst line. -/
def labelWorst : CStr := "Worst".toList

/-- Label of the best line. -/
def labelBest : CStr := "Best".toList

/-- Label of the worst five percent line. -/
def labelWorst5 : CStr := "Worst5%".toList

/-- Label of the best five percent line. -/
def labelBest5 : CStr := "Best5%".toList

/-- Method `ProfilerObject::LogData`: the recorder (its samples now sorted) and the static
state after the call; `none` when an assertion fails. -/
def ProfilerObject.LogData (self : ProfilerObject) (st : Statics) :
    Option (ProfilerObject × Statics) :=
  if self.data.isEmpty then some (self, st)
  else
    let data := stdSort self.data
    let dataSize := data.length
    let s := computeStats data
    let (unit, divider) := selectUnit s.worst
    let st0 := { st with trace := st.trace ++ [Event.header self.name] }
    let print := printWithComparison self.name unit divider
    (print st0 labelAverage s.average).bind fun st1 =>
    (print st1 labelMedian s.median).bind fun st2 =>
    (print st2 labelWorst s.worst).bind fun st3 =>
    (print st3 labelBest s.best).bind fun st4 =>
    if 40 ≤ dataSize then
      (print st4 labelWorst5 s.worst5percent).bind fun st5 =>
      (print st5 labelBest5 s.best5percent).bind fun st6 =>
      some ({ self with data := data }, st6)
    else some ({ self with data := data }, st4)

/-! ## `Profiler`: the registry -/

/-- The recorder registered under the address `addr`, if any. -/
def Profiler.find (reg : List (Nat × ProfilerObject)) (addr : Nat) : Option ProfilerObject :=
  (reg.find? (fun e => e.1 = addr)).map Prod.snd

/-- Apply `f` to the recorder registered under `addr`. -/
def Profiler.update (reg : List (Nat × ProfilerObject)) (addr : Nat)
    (f : ProfilerObject → ProfilerObject) : List (Nat × ProfilerObject) :=
  reg.map fun e => if e.1 = addr then (e.1, f e.2) else e

/-- Method `Profiler::StartTracking`. -/
def Profiler.StartTracking (p : Profiler) (name : CharPtr) (now : Int) : Profiler :=
  let reg :=
    if (Profiler.find p.data name.addr).isNone then
      p.data ++ [(name.addr, ProfilerObject.new name.str)]
    else p.data
  { p with data := Profiler.update reg name.addr (fun o => o.StartTracking now) }

/-- Method `Profiler::StopTracking`. -/
def Profiler.StopTracking (p : Profiler) (name : CharPtr) (now : Int) : Profiler :=
  if (Profiler.find p.data name.addr).isSome then
    { p with data := Profiler.update p.data name.addr (fun o => o.StopTracking now) }
  else p

/-- The loop of `Profiler::LogData` over the registry. -/
def Profiler.logAll : List (Nat × ProfilerObject) → Statics →
    Option (List (Nat × ProfilerObject) × Statics)
  | [], st => some ([], st)
  | (addr, o) :: rest, st =>
    (o.LogData st).bind fun r =>
    (Profiler.logAll rest r.2).bind fun rs =>
    some ((addr, r.1) :: rs.1, rs.2)

/-- Method `Profiler::LogData`: one reporting pass.  The LMDB environment is taken to open
without error. -/
def Profiler.LogData (p : Profiler) : Option Profiler :=
  (Profiler.logAll p.data p.statics).map fun r => { data := r.1, statics := r.2 }

/-! ## Views used in the statements -/

/-- The six labels `LogData` passes to `printWithComparison`. -/
def metricLabels : List CStr :=
  [labelAverage, labelMedian, labelWorst, labelBest, labelWorst5, labelBest5]

/-- Label and current value of the calls of lines 89 to 97, in order. -/
def reportLines (dataSize : Nat) (s : Stats) : List (CStr × Int) :=
  [(labelAverage, s.average), (labelMedian, s.median), (labelWorst, s.worst),
    (labelBest, s.best)]
    ++ (if 40 ≤ dataSize then [(labelWorst5, s.worst5percent), (labelBest5, s.best5percent)]
        else [])

/-- The lambda `printWithComparison` applied to each line in turn. -/
def printAll (name : CStr) (unit : String) (divider : Nat) :
    Statics → List (CStr × Int) → Option Statics
  | st, [] => some st
  | st, (label, current) :: rest =>
    (printWithComparison name unit divider st label current).bind fun st1 =>
      printAll name unit divider st1 rest

/-- What a trace entry puts on `std::cout`: `some none` for a header, `some (some label)`
for a metric line, `none` for an entry that is not written to `std::cout`. -/
def Event.coutTag : Event → Option (Option CStr)
  | .header _ => some none
  | .metric label _ _ _ => some (some label)
  | _ => none

/-- The label, the value shown and the unit of a metric line; `none` for any other entry. -/
def Event.metricView : Event → Option (CStr × ℚ × String)
  | .metric label value unit _ => some (label, value, unit)
  | _ => none

/-- The pointer `RetrieveData` returns after the calls so far, as a value. -/
def retrieved (st : Statics) (keyName keyType : CStr) : Option CStr :=
  (Profiler.RetrieveData st keyName keyType).1

/-! ## Theorems -/

/-! ### The recorder and the registry (C8) -/

theorem update_update_same (reg : List (Nat × ProfilerObject)) (a : Nat)
    (f g : ProfilerObject → ProfilerObject) :
    Profiler.update (Profiler.update reg a f) a g = Profiler.update reg a (fun o => g (f o)) := by
  unfold Profiler.update
  rw [List.map_map]
  apply List.map_congr_left
  intro e _
  by_cases h : e.1 = a <;> simp [h]

theorem find_update (reg : List (Nat × ProfilerObject)) (a : Nat)
    (f : ProfilerObject → ProfilerObject) :
    Profiler.find (Profiler.update reg a f) a = (Profiler.find reg a).map f := by
  unfold Profiler.find Profiler.update
  induction reg with
  | nil => rfl
  | cons e rest ih =>
    by_cases h : e.1 = a
    · simp [List.find?, h]
    · simpa [List.find?, h] using ih

theorem find_append_new (reg : List (Nat × ProfilerObject)) (a : Nat) (o : ProfilerObject)
    (h : Profiler.find reg a = none) : Profiler.find (reg ++ [(a, o)]) a = some o := by
  unfold Profiler.find at *
  induction reg with
  | nil => simp [List.find?]
  | cons e rest ih =>
    by_cases he : e.1 = a
    · simp [List.find?, he] at h
    · simp only [List.cons_append, List.find?, he, decide_False] at h ⊢
      exact ih h

theorem stop_stop (o : ProfilerObject) (t1 t2 : Int) :
    (o.StopTracking t1).StopTracking t2 = o.StopTracking t1 := by
  unfold ProfilerObject.StopTracking
  cases h : o.isTracking <;> simp [h]

theorem start_start (o : ProfilerObject) (t1 t2 : Int) :
    (o.StartTracking t1).StartTracking t2 = o.StartTracking t1 := by
  unfold ProfilerObject.StartTracking
  cases h : o.isTracking <;> simp [h]

/-- C8: stopping twice in a row leaves the recorder as stopping once does: from a tracking
recorder exactly one sample, the 64-bit difference of the first clock reading and the start
instant, is appended and tracking becomes false; from a recorder that is not tracking the
samples are unchanged.  Starting twice leaves the recorder as starting once does: a recorder
that is already tracking keeps its start instant, and the samples never change.  The same
holds for `Profiler::StopTracking(name)` and `Profiler::StartTracking(name)`, which act on
the recorder registered under the name. -/
theorem tracking_idempotent (o : ProfilerObject) (p : Profiler) (name : CharPtr)
    (t1 t2 : Int) :
    (o.StopTracking t1).StopTracking t2 = o.StopTracking t1
    ∧ ((o.StopTracking t1).StopTracking t2).data
        = (if o.isTracking then o.data ++ [wrap64 (t1 - o.startTime)] else o.data)
    ∧ ((o.StopTracking t1).StopTracking t2).isTracking = false
    ∧ (o.StartTracking t1).StartTracking t2 = o.StartTracking t1
    ∧ ((o.StartTracking t1).StartTracking t2).startTime
        = (if o.isTracking then o.startTime else t1)
    ∧ ((o.StartTracking t1).StartTracking t2).data = o.data
    ∧ (p.StopTracking name t1).StopTracking name t2 = p.StopTracking name t1
    ∧ Profiler.find ((p.StopTracking name t1).StopTracking name t2).data name.addr
        = (Profiler.find p.data name.addr).map (fun r => r.StopTracking t1)
    ∧ (p.StartTracking name t1).StartTracking name t2 = p.StartTracking name t1
    ∧ Profiler.find ((p.StartTracking name t1).StartTracking name t2).data name.addr
        = some (((Profiler.find p.data name.addr).getD
            (ProfilerObject.new name.str)).StartTracking t1) := by
  have hstop : (p.StopTracking name t1).StopTracking name t2 = p.StopTracking name t1 := by
    unfold Profiler.StopTracking
    by_cases h : (Profiler.find p.data name.addr).isSome
    · simp only [h, if_true, find_update, Option.isSome_map', update_update_same, stop_stop]
    · simp [h]
  have hreg : ∀ q : Profiler, (Profiler.find (q.StartTracking name t1).data name.addr)
      = some (((Profiler.find q.data name.addr).getD
            (ProfilerObject.new name.str)).StartTracking t1) := by
    intro q
    unfold Profiler.StartTracking
    cases h : Profiler.find q.data name.addr with
    | none => simp [h, find_update, find_append_new]
    | some r => simp [h, find_update]
  have hstart : (p.StartTracking name t1).StartTracking name t2 = p.StartTracking name t1 := by
    have hgen : ∀ q : Profiler, (Profiler.find q.data name.addr).isSome →
        q.StartTracking name t2 = { q with
          data := Profiler.update q.data name.addr (fun o => o.StartTracking t2) } := by
      intro q hq
      unfold Profiler.StartTracking
      cases h : Profiler.find q.data name.addr with
      | none => simp [h] at hq
      | some r => simp
    have h2 := hgen (p.StartTracking name t1) (by rw [hreg p]; rfl)
    rw [h2]
    unfold Profiler.StartTracking
    simp only [update_update_same, start_start]
  refine ⟨stop_stop o t1 t2, ?_, ?_, start_start o t1 t2, ?_, ?_, hstop, ?_, hstart, ?_⟩
  · rw [stop_stop]; unfold ProfilerObject.StopTracking; cases h : o.isTracking <;> simp [h]
  · rw [stop_stop]; unfold ProfilerObject.StopTracking; cases h : o.isTracking <;> simp [h]
  · rw [start_start]; unfold ProfilerObject.StartTracking; cases h : o.isTracking <;> simp [h]
  · rw [start_start]; unfold ProfilerObject.StartTracking; cases h : o.isTracking <;> simp [h]
  · rw [hstop]
    unfold Profiler.StopTracking
    cases h : Profiler.find p.data name.addr with
    | none => simp [h]
    | some r => simp [h, find_update]
  · rw [hstart]; exact hreg p

/-! ### One call of `printWithComparison` and the sequence of calls -/

theorem makeKey_length_le (n l : CStr) : (makeKey n l).length ≤ 255 := by
  unfold makeKey; simp

theorem validKey_makeKey (n l : CStr) (hl : l ≠ []) : validKey (makeKey n l) = true := by
  have h1 := makeKey_length_le n l
  have h2 : 0 < (makeKey n l).length := by
    unfold makeKey
    rw [List.length_take, List.length_append]
    have : 0 < l.length := List.length_pos.mpr hl
    omega
  unfold validKey
  simp only [Bool.and_eq_true, decide_eq_true_eq]
  omega

theorem printWithComparison_spec (name : CStr) (unit : String) (divider : Nat) (st : Statics)
    (label : CStr) (current : Int) (hl : label ≠ []) :
    ∃ cmp, printWithComparison name unit divider st label current
      = some { isSaveOn := st.isSaveOn
               db := if st.isSaveOn then st.db.insert (makeKey name label) (to_string current)
                     else st.db
               trace := st.trace
                 ++ (Event.dbGet (makeKey name label)
                      :: (if (st.db.find (makeKey name label)).isSome then []
                          else [Event.keyNotFound (makeKey name label)]))
                 ++ [Event.metric label (shownValue current divider) unit cmp]
                 ++ (if st.isSaveOn
                     then [Event.dbPut (makeKey name label) (to_string current)] else []) }
      ∧ cmp = (st.db.find (makeKey name label)).map
          (fun v => (signOf current (atol v), resultValue current (atol v))) := by
  have hv := validKey_makeKey name label hl
  unfold printWithComparison Profiler.RetrieveData Profiler.InsertData mdb_get mdb_put
  simp only [hv, if_true]
  cases hf : st.db.find (makeKey name label) with
  | none =>
    cases hs : st.isSaveOn <;> simp [hs]
  | some v =>
    cases hs : st.isSaveOn <;> simp [hs]

theorem LogData_eq_printAll (self : ProfilerObject) (st : Statics) (h : self.data ≠ []) :
    self.LogData st
      = (printAll self.name (selectUnit (computeStats (stdSort self.data)).worst).1
          (selectUnit (computeStats (stdSort self.data)).worst).2
          { st with trace := st.trace ++ [Event.header self.name] }
          (reportLines (stdSort self.data).length (computeStats (stdSort self.data)))).map
          fun st1 => ({ self with data := stdSort self.data }, st1) := by
  unfold ProfilerObject.LogData reportLines
  have he : self.data.isEmpty = false := by
    cases hd : self.data with
    | nil => exact absurd hd h
    | cons a l => rfl
  simp only [he, Bool.false_eq_true, if_false]
  by_cases h40 : 40 ≤ (stdSort self.data).length
  · simp only [h40, if_true, printAll, List.cons_append, List.nil_append]
    cases printWithComparison self.name _ _ _ labelAverage _ with
    | none => rfl
    | some s1 =>
      simp only [Option.bind]
      cases printWithComparison self.name _ _ s1 labelMedian _ with
      | none => rfl
      | some s2 =>
        simp only [Option.bind]
        cases printWithComparison self.name _ _ s2 labelWorst _ with
        | none => rfl
        | some s3 =>
          simp only [Option.bind]
          cases printWithComparison self.name _ _ s3 labelBest _ with
          | none => rfl
          | some s4 =>
            simp only [Option.bind]
            cases printWithComparison self.name _ _ s4 labelWorst5 _ with
            | none => rfl
            | some s5 =>
              simp only [Option.bind]
              cases printWithComparison self.name _ _ s5 labelBest5 _ with
              | none => rfl
              | some s6 => rfl
  · simp only [h40, if_false, printAll, List.cons_append, List.nil_append, List.append_nil]
    cases printWithComparison self.name _ _ _ labelAverage _ with
    | none => rfl
    | some s1 =>
      simp only [Option.bind]
      cases printWithComparison self.name _ _ s1 labelMedian _ with
      | none => rfl
      | some s2 =>
        simp only [Option.bind]
        cases printWithComparison self.name _ _ s2 labelWorst _ with
        | none => rfl
        | some s3 =>
          simp only [Option.bind]
          cases printWithComparison self.name _ _ s3 labelBest _ with
          | none => rfl
          | some s4 => rfl

theorem printWithComparison_effect (name : CStr) (unit : String) (divider : Nat)
    (st : Statics) (label : CStr) (current : Int) (hl : label ≠ []) :
    ∃ st1 evs, printWithComparison name unit divider st label current = some st1
      ∧ st1.isSaveOn = st.isSaveOn
      ∧ st1.trace = st.trace ++ evs
      ∧ evs.filterMap Event.coutTag = [some label]
      ∧ (∀ e ∈ evs, ∀ l v u c, e = Event.metric l v u c →
          u = unit ∧ l = label ∧ v = shownValue current divider)
      ∧ st1.db = (if st.isSaveOn then st.db.insert (makeKey name label) (to_string current)
          else st.db) := by
  obtain ⟨cmp, hp, -⟩ := printWithComparison_spec name unit divider st label current hl
  refine ⟨_, (Event.dbGet (makeKey name label)
      :: (if (st.db.find (makeKey name label)).isSome then []
          else [Event.keyNotFound (makeKey name label)]))
      ++ [Event.metric label (shownValue current divider) unit cmp]
      ++ (if st.isSaveOn
          then [Event.dbPut (makeKey name label) (to_string current)] else []),
    hp, rfl, ?_, ?_, ?_, rfl⟩
  · simp only [List.append_assoc]
  · cases st.isSaveOn <;> cases (st.db.find (makeKey name label)).isSome <;>
      simp [Event.coutTag]
  · intro e he l v u c hc
    subst hc
    cases hs : st.isSaveOn <;> cases hf : (st.db.find (makeKey name label)).isSome <;>
      simp [hs, hf] at he <;> simp [he]

theorem printAll_spec (name : CStr) (unit : String) (divider : Nat)
    (lines : List (CStr × Int)) (hl : ∀ p ∈ lines, p.1 ≠ []) (st : Statics) :
    ∃ st1 evs, printAll name unit divider st lines = some st1
      ∧ st1.isSaveOn = st.isSaveOn
      ∧ st1.trace = st.trace ++ evs
      ∧ evs.filterMap Event.coutTag = lines.map (fun p => some p.1)
      ∧ (∀ e ∈ evs, ∀ l v u c, e = Event.metric l v u c →
          u = unit ∧ ∃ cur, (l, cur) ∈ lines ∧ v = shownValue cur divider)
      ∧ st1.db = (if st.isSaveOn then
          lines.foldl (fun db p => db.insert (makeKey name p.1) (to_string p.2)) st.db
          else st.db) := by
  induction lines generalizing st with
  | nil => exact ⟨st, [], rfl, rfl, by simp, rfl, by simp, by simp⟩
  | cons p rest ih =>
    obtain ⟨label, current⟩ := p
    have hlab : label ≠ [] := hl (label, current) (List.mem_cons_self _ _)
    obtain ⟨st1, evs1, g1, g2, g3, g4, g5, g6⟩ :=
      printWithComparison_effect name unit divider st label current hlab
    obtain ⟨st2, evs2, h1, h2, h3, h4, h5, h6⟩ :=
      ih (fun q hq => hl q (List.mem_cons_of_mem _ hq)) st1
    refine ⟨st2, evs1 ++ evs2, ?_, ?_, ?_, ?_, ?_, ?_⟩
    · simp only [printAll, g1, Option.bind]; exact h1
    · rw [h2, g2]
    · rw [h3, g3, List.append_assoc]
    · rw [List.filterMap_append, g4, h4]; rfl
    · intro e he l v u c hc
      rcases List.mem_append.mp he with h | h
      · obtain ⟨a, b, c2⟩ := g5 e h l v u c hc
        exact ⟨a, current, by rw [b]; exact List.mem_cons_self _ _, c2⟩
      · obtain ⟨a, cur, b, c2⟩ := h5 e h l v u c hc
        exact ⟨a, cur, List.mem_cons_of_mem _ b, c2⟩
    · rw [h6, g2, g6]
      cases st.isSaveOn <;> simp

/-! ### Sorted samples -/

theorem stdSort_sorted (data : List Int) : (stdSort data).Sorted (· ≤ ·) :=
  List.sorted_insertionSort _ data

theorem stdSort_perm (data : List Int) : (stdSort data).Perm data :=
  List.perm_insertionSort _ data

theorem stdSort_length (data : List Int) : (stdSort data).length = data.length :=
  (stdSort_perm data).length_eq

theorem stdSort_unique (data s : List Int) (hs : s.Sorted (· ≤ ·)) (hp : s.Perm data) :
    stdSort data = s :=
  List.eq_of_perm_of_sorted ((stdSort_perm data).trans hp.symm) (stdSort_sorted data) hs

theorem sorted_head_le (s : List Int) (hs : s.Sorted (· ≤ ·)) : ∀ x ∈ s, s.headD 0 ≤ x := by
  intro x hx
  cases s with
  | nil => simp at hx
  | cons a l =>
    rcases List.mem_cons.mp hx with h | h
    · simp [h]
    · exact List.rel_of_sorted_cons hs x h

theorem sorted_le_getLast (s : List Int) (hs : s.Sorted (· ≤ ·)) :
    ∀ x ∈ s, x ≤ s.getLastD 0 := by
  induction s with
  | nil => intro x hx; simp at hx
  | cons a l ih =>
    intro x hx
    cases l with
    | nil => simp at hx; simp [hx]
    | cons b m =>
      have hl : (b :: m).Sorted (· ≤ ·) := hs.of_cons
      have h1 : (a :: b :: m).getLastD 0 = (b :: m).getLastD 0 := by simp [List.getLastD]
      rw [h1]
      rcases List.mem_cons.mp hx with h | h
      · have hab : a ≤ b := List.rel_of_sorted_cons hs b (List.mem_cons_self _ _)
        have := ih hl b (List.mem_cons_self _ _)
        omega
      · exact ih hl x h

theorem headD_mem (s : List Int) (h : s ≠ []) : s.headD 0 ∈ s := by
  cases s with
  | nil => exact absurd rfl h
  | cons a l => simp

theorem getLastD_mem (s : List Int) (h : s ≠ []) : s.getLastD 0 ∈ s := by
  cases s with
  | nil => exact absurd rfl h
  | cons a l => rw [List.getLastD_cons]; exact List.getLastD_mem_cons l a

theorem getD_mem (s : List Int) (i : Nat) (h : i < s.length) : s.getD i 0 ∈ s := by
  rw [List.getD_eq_getElem _ _ h]; exact List.getElem_mem _

theorem stdSort_ne_nil (data : List Int) (h : data ≠ []) : stdSort data ≠ [] := by
  intro h0
  have := stdSort_length data
  rw [h0] at this
  exact h (List.length_eq_zero.mp this.symm)

theorem metricLabels_ne_nil : ∀ l ∈ metricLabels, l ≠ [] := by decide

theorem reportLines_map (n : Nat) (s : Stats) :
    (reportLines n s).map (fun p => p.1)
      = if 40 ≤ n then metricLabels
        else [labelAverage, labelMedian, labelWorst, labelBest] := by
  unfold reportLines
  by_cases h : 40 ≤ n <;> simp [h, metricLabels]

theorem reportLines_mem (n : Nat) (s : Stats) :
    ∀ p ∈ reportLines n s, p.1 ∈ metricLabels := by
  intro p hp
  have h1 : p.1 ∈ (reportLines n s).map (fun p => p.1) := List.mem_map_of_mem _ hp
  rw [reportLines_map] at h1
  by_cases h : 40 ≤ n
  · simpa [h] using h1
  · simp only [h, if_false] at h1
    revert h1
    generalize p.1 = l
    simp only [metricLabels, List.mem_cons, List.mem_singleton, List.not_mem_nil, or_false]
    tauto

theorem reportLines_labels (n : Nat) (s : Stats) : ∀ p ∈ reportLines n s, p.1 ≠ [] :=
  fun p hp => metricLabels_ne_nil _ (reportLines_mem n s p hp)

/-- C5: what `ProfilerObject::LogData` writes to `std::cout` depends on the sample count
alone.  With no sample the call returns at once: recorder and static state (store and trace)
are unchanged.  With 1 to 39 samples the header is followed by exactly the lines Average,
Median, Worst, Best, in that order; with 40 samples or more by those four and then Worst5%
and Best5%.  Hence the lines Worst5% and Best5% appear exactly when there are at least 40
samples. -/
theorem metric_lines_by_sample_count (self : ProfilerObject) (st : Statics) :
    ∃ r evs, self.LogData st = some r ∧ r.2.trace = st.trace ++ evs
      ∧ (if self.data.length = 0 then r = (self, st) ∧ evs = []
         else if self.data.length < 40 then
           evs.filterMap Event.coutTag
             = [none, some labelAverage, some labelMedian, some labelWorst, some labelBest]
         else
           evs.filterMap Event.coutTag
             = [none, some labelAverage, some labelMedian, some labelWorst, some labelBest,
                some labelWorst5, some labelBest5])
      ∧ ((some labelWorst5 ∈ evs.filterMap Event.coutTag
            ∧ some labelBest5 ∈ evs.filterMap Event.coutTag) ↔ 40 ≤ self.data.length)
      ∧ ((some labelWorst5 ∈ evs.filterMap Event.coutTag
            ∨ some labelBest5 ∈ evs.filterMap Event.coutTag) ↔ 40 ≤ self.data.length) := by
  by_cases h0 : self.data = []
  · refine ⟨(self, st), [], ?_, by simp, by simp [h0], by simp [h0], by simp [h0]⟩
    unfold ProfilerObject.LogData; simp [h0]
  · have hlen : self.data.length ≠ 0 := fun h => h0 (List.length_eq_zero.mp h)
    obtain ⟨st1, evs, h1, -, h3, h4, -, -⟩ := printAll_spec self.name
      (selectUnit (computeStats (stdSort self.data)).worst).1
      (selectUnit (computeStats (stdSort self.data)).worst).2
      (reportLines (stdSort self.data).length (computeStats (stdSort self.data)))
      (reportLines_labels _ _) { st with trace := st.trace ++ [Event.header self.name] }
    have hcout : (Event.header self.name :: evs).filterMap Event.coutTag
        = none :: ((reportLines self.data.length (computeStats (stdSort self.data))).map
            (fun p => p.1)).map some := by
      rw [List.filterMap_cons_some (by rfl : Event.coutTag (Event.header self.name) = some none),
        h4, stdSort_length, List.map_map]
      rfl
    refine ⟨({ self with data := stdSort self.data }, st1), Event.header self.name :: evs,
      ?_, ?_, ?_, ?_, ?_⟩
    · rw [LogData_eq_printAll self st h0, h1]; rfl
    · rw [h3]; simp
    · rw [hcout, reportLines_map]
      by_cases h40 : self.data.length < 40
      · have : ¬ 40 ≤ self.data.length := by omega
        simp [hlen, h40, this]
      · have : 40 ≤ self.data.length := by omega
        simp [hlen, h40, this, metricLabels]
    · rw [hcout, reportLines_map]
      by_cases h40 : 40 ≤ self.data.length
      · simp [h40, metricLabels]
      · simp only [h40, if_false, iff_false]
        decide
    · rw [hcout, reportLines_map]
      by_cases h40 : 40 ≤ self.data.length
      · simp [h40, metricLabels]
      · simp only [h40, if_false, iff_false]
        decide

/-! ### Statistics (C1, C7) -/

theorem wrap64_of_inInt64 (x : Int) (h : inInt64 x) : wrap64 x = x := by
  unfold inInt64 at h
  unfold wrap64
  omega

theorem foldl_wrap_eq_sum (l : List Int) (acc : Int) (hacc : 0 ≤ acc)
    (hnn : ∀ x ∈ l, 0 ≤ x) (hsum : acc + l.sum < 2 ^ 63) :
    l.foldl (fun a v => wrap64 (a + v)) acc = acc + l.sum := by
  induction l generalizing acc with
  | nil => simp
  | cons v rest ih =>
    have hv : 0 ≤ v := hnn v (List.mem_cons_self _ _)
    have hrest : ∀ x ∈ rest, 0 ≤ x := fun x hx => hnn x (List.mem_cons_of_mem _ hx)
    have hrs : 0 ≤ rest.sum := List.sum_nonneg hrest
    rw [List.sum_cons] at hsum
    have hw : wrap64 (acc + v) = acc + v :=
      wrap64_of_inInt64 _ ⟨by omega, by omega⟩
    rw [List.foldl_cons, hw, ih (acc + v) (by omega) hrest (by omega), List.sum_cons]
    ring

theorem length_mul_le_sum (l : List Int) (a : Int) (h : ∀ x ∈ l, a ≤ x) :
    (l.length : Int) * a ≤ l.sum := by
  induction l with
  | nil => simp
  | cons v rest ih =>
    have := ih (fun x hx => h x (List.mem_cons_of_mem _ hx))
    have hv := h v (List.mem_cons_self _ _)
    rw [List.sum_cons, List.length_cons]
    push_cast
    linarith

theorem sum_le_length_mul (l : List Int) (b : Int) (h : ∀ x ∈ l, x ≤ b) :
    l.sum ≤ (l.length : Int) * b := by
  induction l with
  | nil => simp
  | cons v rest ih =>
    have := ih (fun x hx => h x (List.mem_cons_of_mem _ hx))
    have hv := h v (List.mem_cons_self _ _)
    rw [List.sum_cons, List.length_cons]
    push_cast
    linarith

theorem sorted_getD_le (s : List Int) (hs : s.Sorted (· ≤ ·)) (i j : Nat) (hij : i ≤ j)
    (hj : j < s.length) : s.getD i 0 ≤ s.getD j 0 := by
  rw [List.getD_eq_getElem _ _ hj, List.getD_eq_getElem _ _ (lt_of_le_of_lt hij hj)]
  rcases Nat.eq_or_lt_of_le hij with h | h
  · subst h; exact le_refl _
  · exact List.pairwise_iff_getElem.mp hs i j _ hj h

theorem adjacent_le_sum (s : List Int) (hnn : ∀ x ∈ s, 0 ≤ x) (k : Nat)
    (hk : k + 1 < s.length) : s.getD k 0 + s.getD (k + 1) 0 ≤ s.sum := by
  rw [List.getD_eq_getElem _ _ hk, List.getD_eq_getElem _ _ (Nat.lt_of_succ_lt hk)]
  have h1 : (s.take k).sum + (s.drop k).sum = s.sum := List.sum_take_add_sum_drop s k
  have h2 : s.drop k = s[k] :: s[k + 1] :: s.drop (k + 2) := by
    rw [List.drop_eq_getElem_cons (Nat.lt_of_succ_lt hk), List.drop_eq_getElem_cons hk]
  have h3 : 0 ≤ (s.take k).sum :=
    List.sum_nonneg (fun x hx => hnn x (List.mem_of_mem_take hx))
  have h4 : 0 ≤ (s.drop (k + 2)).sum :=
    List.sum_nonneg (fun x hx => hnn x (List.mem_of_mem_drop hx))
  rw [h2, List.sum_cons, List.sum_cons] at h1
  linarith

/-- C1: for a non-empty sequence of non-negative samples whose sum fits in a signed 64-bit
integer, the statistics of `LogData` satisfy best <= median <= worst and
best <= average <= worst, where best and worst are the minimum and the maximum sample and
average is the exact sum divided (truncating) by the sample count. -/
theorem stats_between_best_and_worst (data : List Int) (hne : data ≠ [])
    (hnn : ∀ x ∈ data, 0 ≤ x) (hsum : data.sum < 2 ^ 63) :
    (computeStats (stdSort data)).best ≤ (computeStats (stdSort data)).median
    ∧ (computeStats (stdSort data)).median ≤ (computeStats (stdSort data)).worst
    ∧ (computeStats (stdSort data)).best ≤ (computeStats (stdSort data)).average
    ∧ (computeStats (stdSort data)).average ≤ (computeStats (stdSort data)).worst
    ∧ (computeStats (stdSort data)).best ∈ data
    ∧ (∀ x ∈ data, (computeStats (stdSort data)).best ≤ x)
    ∧ (computeStats (stdSort data)).worst ∈ data
    ∧ (∀ x ∈ data, x ≤ (computeStats (stdSort data)).worst)
    ∧ (computeStats (stdSort data)).average = data.sum / (data.length : Int) := by
  have hperm := stdSort_perm data
  have hsorted := stdSort_sorted data
  have hlen := stdSort_length data
  have hsne := stdSort_ne_nil data hne
  have hpos : 0 < (stdSort data).length := List.length_pos.mpr hsne
  have hsnn : ∀ x ∈ stdSort data, 0 ≤ x := fun x hx => hnn x (hperm.mem_iff.mp hx)
  have hssum : (stdSort data).sum = data.sum := hperm.sum_eq
  have hmin : ∀ x ∈ stdSort data, (stdSort data).headD 0 ≤ x := sorted_head_le _ hsorted
  have hmax : ∀ x ∈ stdSort data, x ≤ (stdSort data).getLastD 0 :=
    sorted_le_getLast _ hsorted
  have havg : averageOf (stdSort data) = data.sum / (data.length : Int) := by
    unfold averageOf
    rw [foldl_wrap_eq_sum _ 0 (le_refl _) hsnn (by rw [hssum]; omega), zero_add, hssum, hlen,
      Int.tdiv_eq_ediv (List.sum_nonneg hnn) (Int.natCast_nonneg _)]
  have hn0 : (0 : Int) < (data.length : Int) := by rw [← hlen]; exact_mod_cast hpos
  have hmed : (stdSort data).headD 0 ≤ medianOf (stdSort data)
      ∧ medianOf (stdSort data) ≤ (stdSort data).getLastD 0 := by
    unfold medianOf
    have hmid : (stdSort data).length / 2 < (stdSort data).length := by omega
    by_cases hev : (stdSort data).length % 2 = 0
    · simp only [hev, if_true]
      have hk : (stdSort data).length / 2 - 1 + 1 = (stdSort data).length / 2 := by omega
      have hk1 : (stdSort data).length / 2 - 1 + 1 < (stdSort data).length := by omega
      have hadj := adjacent_le_sum _ hsnn ((stdSort data).length / 2 - 1) hk1
      rw [hk] at hadj
      have ha0 := hsnn _ (getD_mem _ ((stdSort data).length / 2 - 1) (by omega))
      have hb0 := hsnn _ (getD_mem _ ((stdSort data).length / 2) hmid)
      have ha1 := hmin _ (getD_mem _ ((stdSort data).length / 2 - 1) (by omega))
      have hb1 := hmax _ (getD_mem _ ((stdSort data).length / 2) hmid)
      have hab := sorted_getD_le _ hsorted ((stdSort data).length / 2 - 1)
        ((stdSort data).length / 2) (by omega) hmid
      rw [wrap64_of_inInt64 _ ⟨by omega, by omega⟩,
        Int.tdiv_eq_ediv (by omega) (by norm_num)]
      omega
    · simp only [hev, if_false]
      exact ⟨hmin _ (getD_mem _ _ hmid), hmax _ (getD_mem _ _ hmid)⟩
  refine ⟨hmed.1, hmed.2, ?_, ?_, hperm.mem_iff.mp (headD_mem _ hsne),
    fun x hx => hmin x (hperm.mem_iff.mpr hx), hperm.mem_iff.mp (getLastD_mem _ hsne),
    fun x hx => hmax x (hperm.mem_iff.mpr hx), havg⟩
  · show (stdSort data).headD 0 ≤ averageOf (stdSort data)
    rw [havg, Int.le_ediv_iff_mul_le hn0, ← hssum, ← hlen, mul_comm]
    exact length_mul_le_sum _ _ hmin
  · show averageOf (stdSort data) ≤ (stdSort data).getLastD 0
    rw [havg]
    apply Int.ediv_le_of_le_mul hn0
    rw [← hssum, ← hlen, mul_comm]
    exact sum_le_length_mul _ _ hmax

/-- The bounds of C1 at the samples 30, 10, 20, 44. -/
theorem stats_between_best_and_worst_witness :
    (computeStats (stdSort [30, 10, 20, 44])).best ≤ (computeStats (stdSort [30, 10, 20, 44])).median
    ∧ (computeStats (stdSort [30, 10, 20, 44])).median ≤ (computeStats (stdSort [30, 10, 20, 44])).worst
    ∧ (computeStats (stdSort [30, 10, 20, 44])).best ≤ (computeStats (stdSort [30, 10, 20, 44])).average
    ∧ (computeStats (stdSort [30, 10, 20, 44])).average ≤ (computeStats (stdSort [30, 10, 20, 44])).worst :=
  have h := stats_between_best_and_worst [30, 10, 20, 44] (by decide) (by decide) (by decide)
  ⟨h.1, h.2.1, h.2.2.1, h.2.2.2.1⟩

/-- C7, amended: with `s` the ascending sort of a non-empty sample sequence of length `n`, the
median of `LogData` is `s[n/2]` when `n` is odd and, when `n` is even and the sum of the two
central samples fits in a signed 64-bit integer, `(s[n/2 - 1] + s[n/2]) / 2` with the
truncating division of tick counts (the floor for a non-negative sum); both indices are in
range. -/
theorem median_central_samples (data s : List Int) (hne : data ≠ [])
    (hs : s.Sorted (· ≤ ·)) (hp : s.Perm data)
    (hfit : data.length % 2 = 0 →
      inInt64 (s.getD (data.length / 2 - 1) 0 + s.getD (data.length / 2) 0)) :
    (computeStats (stdSort data)).median
      = (if data.length % 2 = 1 then s.getD (data.length / 2) 0
         else Int.tdiv (s.getD (data.length / 2 - 1) 0 + s.getD (data.length / 2) 0) 2)
    ∧ data.length / 2 < s.length
    ∧ (data.length % 2 = 0 → 1 ≤ data.length / 2)
    ∧ (0 ≤ s.getD (data.length / 2 - 1) 0 + s.getD (data.length / 2) 0 →
        Int.tdiv (s.getD (data.length / 2 - 1) 0 + s.getD (data.length / 2) 0) 2
          = (s.getD (data.length / 2 - 1) 0 + s.getD (data.length / 2) 0) / 2) := by
  have hu := stdSort_unique data s hs hp
  have hlen : s.length = data.length := hp.length_eq
  have hpos : 0 < data.length := List.length_pos.mpr hne
  refine ⟨?_, by omega, by omega, fun h => Int.tdiv_eq_ediv h (by norm_num)⟩
  show medianOf (stdSort data) = _
  rw [hu]
  unfold medianOf
  rw [hlen]
  by_cases hev : data.length % 2 = 0
  · have : ¬ data.length % 2 = 1 := by omega
    rw [if_pos hev, if_neg this, wrap64_of_inInt64 _ (hfit hev)]
  · have : data.length % 2 = 1 := by omega
    simp [hev, this]

/-- The median of C7 at an even and at an odd number of samples. -/
theorem median_central_samples_witness :
    (computeStats (stdSort [30, 10, 20, 44])).median = 25
    ∧ (computeStats (stdSort [30, 10, 20])).median = 20 := by
  have h1 := (median_central_samples [30, 10, 20, 44] [10, 20, 30, 44] (by decide)
    (by decide) (by decide) (by decide)).1
  have h2 := (median_central_samples [30, 10, 20] [10, 20, 30] (by decide)
    (by decide) (by decide) (by decide)).1
  exact ⟨h1.trans (by decide), h2.trans (by decide)⟩

/-- C7 as stated fails when the sum of the two central samples does not fit in 64 bits: for
the two samples `2 ^ 62` and `2 ^ 62` the 64-bit sum wraps to `-2 ^ 63` and the median
computed is `-2 ^ 62`, below both samples, where `(s[0] + s[1]) / 2` is `2 ^ 62`. -/
theorem median_wraps_for_huge_samples :
    List.Sorted (· ≤ ·) ([4611686018427387904, 4611686018427387904] : List Int)
    ∧ (computeStats (stdSort [4611686018427387904, 4611686018427387904])).median
        = -4611686018427387904
    ∧ Int.tdiv (([4611686018427387904, 4611686018427387904] : List Int).getD 0 0
        + ([4611686018427387904, 4611686018427387904] : List Int).getD 1 0) 2
        = 4611686018427387904
    ∧ (computeStats (stdSort [4611686018427387904, 4611686018427387904])).median
        ≠ Int.tdiv (([4611686018427387904, 4611686018427387904] : List Int).getD 0 0
            + ([4611686018427387904, 4611686018427387904] : List Int).getD 1 0) 2 := by
  decide

/-! ### Decimal encoding and the baseline store (C3) -/

theorem digitChar_toNat (d : Nat) (h : d < 10) : (digitChar d).toNat = 48 + d := by
  unfold digitChar
  interval_cases d <;> decide

theorem parseDigits_digit (d : Nat) (h : d < 10) (cs : CStr) (acc : Nat) :
    parseDigits (digitChar d :: cs) acc = parseDigits cs (acc * 10 + d) := by
  have := digitChar_toNat d h
  simp only [parseDigits, this]
  have h1 : 48 ≤ 48 + d ∧ 48 + d ≤ 57 := by omega
  simp [h1]

theorem parse_natToDecimal (fuel : Nat) : ∀ (n : Nat) (acc : CStr) (a : Nat), n < fuel →
    parseDigits (natToDecimal fuel n acc) a
      = parseDigits acc (a * 10 ^ (Nat.log 10 n + 1) + n) := by
  induction fuel with
  | zero => intro n acc a h; omega
  | succ f ih =>
    intro n acc a h
    by_cases h10 : n < 10
    · simp only [natToDecimal, h10, if_true]
      rw [parseDigits_digit n h10, Nat.log_of_lt h10]
      simp
    · simp only [natToDecimal, h10, if_false]
      have hdiv : n / 10 < f := by omega
      rw [ih (n / 10) _ a hdiv, parseDigits_digit _ (Nat.mod_lt _ (by norm_num))]
      have hlog : Nat.log 10 n = Nat.log 10 (n / 10) + 1 :=
        Nat.log_of_one_lt_of_le (by norm_num) (by omega)
      rw [hlog]
      congr 1
      have := Nat.div_add_mod n 10
      rw [pow_succ (10 : Nat) (Nat.log 10 (n / 10) + 1)]
      nlinarith [Nat.div_add_mod n 10]

theorem natToDecimal_head (fuel : Nat) : ∀ (n : Nat) (acc : CStr), n < fuel →
    ∃ d tl, d < 10 ∧ natToDecimal fuel n acc = digitChar d :: tl := by
  induction fuel with
  | zero => intro n acc h; omega
  | succ f ih =>
    intro n acc h
    by_cases h10 : n < 10
    · exact ⟨n, acc, h10, by simp [natToDecimal, h10]⟩
    · simp only [natToDecimal, h10, if_false]
      exact ih (n / 10) _ (by omega)

theorem atol_digits (d : Nat) (hd : d < 10) (tl : CStr) :
    atol (digitChar d :: tl) = clampLong (parseDigits (digitChar d :: tl) 0 : Int) := by
  interval_cases d <;> rfl

theorem atol_minus (d : Nat) (tl : CStr) :
    atol ('-' :: digitChar d :: tl) = clampLong (-(parseDigits (digitChar d :: tl) 0 : Int)) := by
  rfl

theorem clampLong_of_inInt64 (x : Int) (h : inInt64 x) : clampLong x = x := by
  unfold inInt64 at h
  unfold clampLong
  split_ifs <;> omega

theorem atol_to_string (v : Int) (h : inInt64 v) : atol (to_string v) = v := by
  obtain ⟨d, tl, hd, hdt⟩ := natToDecimal_head (v.natAbs + 1) v.natAbs [] (by omega)
  have hval : parseDigits (natToDecimal (v.natAbs + 1) v.natAbs []) 0 = v.natAbs := by
    rw [parse_natToDecimal _ _ _ _ (by omega)]
    simp [parseDigits]
  unfold to_string
  by_cases hneg : v < 0
  · simp only [hneg, if_true]
    rw [hdt, atol_minus d, ← hdt, hval]
    have : (-(v.natAbs : Int)) = v := by omega
    rw [this, clampLong_of_inInt64 v h]
  · simp only [hneg, if_false]
    rw [hdt, atol_digits d hd, ← hdt, hval]
    have : ((v.natAbs : Int)) = v := by omega
    rw [this, clampLong_of_inInt64 v h]

theorem find_filter_ne (db : Store) (key k : CStr) (h : k ≠ key) :
    Store.find (db.filter (fun e => decide (e.1 ≠ key))) k = Store.find db k := by
  induction db with
  | nil => rfl
  | cons e rest ih =>
    obtain ⟨k1, v1⟩ := e
    rw [List.filter_cons]
    by_cases h1 : k1 = key
    · have hk : ¬ k1 = k := fun e => h (e.symm.trans h1)
      simp only [h1, ne_eq, not_true_eq_false, decide_False, Bool.false_eq_true, if_false]
      rw [ih, ← h1]
      simp only [Store.find, hk, if_false]
    · simp only [ne_eq, h1, not_false_eq_true, decide_True, if_true]
      by_cases h2 : k1 = k
      · simp only [Store.find, h2, if_true]
      · simp only [Store.find, h2, if_false]
        exact ih

theorem find_filter_self (db : Store) (key : CStr) :
    Store.find (db.filter (fun e => decide (e.1 ≠ key))) key = none := by
  induction db with
  | nil => rfl
  | cons e rest ih =>
    obtain ⟨k1, v1⟩ := e
    rw [List.filter_cons]
    by_cases h1 : k1 = key
    · simp only [h1, ne_eq, not_true_eq_false, decide_False, Bool.false_eq_true, if_false]
      exact ih
    · simp only [ne_eq, h1, not_false_eq_true, decide_True, if_true, Store.find, if_false]
      exact ih

theorem find_insert_self (db : Store) (key value : CStr) :
    (db.insert key value).find key = some value := by
  simp [Store.insert, Store.find]

theorem find_insert_ne (db : Store) (key value k : CStr) (h : k ≠ key) :
    (db.insert key value).find k = db.find k := by
  have hk : ¬ key = k := fun e => h e.symm
  simp only [Store.insert, Store.find, hk, if_false]
  exact find_filter_ne db key k h

theorem entries_insert (db : Store) (key value : CStr) :
    (db.insert key value).filter (fun e => decide (e.1 = key)) = [(key, value)] := by
  simp only [Store.insert, List.filter_cons, decide_True, if_true, List.filter_filter]
  congr 1
  apply List.filter_eq_nil_iff.mpr
  intro a _
  simp

theorem retrieved_eq (st : Statics) (keyName keyType : CStr) (h : keyType ≠ []) :
    retrieved st keyName keyType = st.db.find (makeKey keyName keyType) := by
  have hv := validKey_makeKey keyName keyType h
  unfold retrieved Profiler.RetrieveData mdb_get
  simp only [hv, if_true]
  cases st.db.find (makeKey keyName keyType) <;> rfl

theorem RetrieveData_keeps (st : Statics) (keyName keyType : CStr) :
    (Profiler.RetrieveData st keyName keyType).2.isSaveOn = st.isSaveOn
    ∧ (Profiler.RetrieveData st keyName keyType).2.db = st.db := by
  unfold Profiler.RetrieveData
  rcases h : mdb_get st.db (makeKey keyName keyType) with e | v
  · cases e <;> simp only [h, and_self]
  · simp only [h, and_self]

theorem InsertData_saveOn (st : Statics) (keyName keyType value : CStr) (h : keyType ≠ [])
    (hs : st.isSaveOn = true) :
    Profiler.InsertData st keyName keyType value
      = some { st with db := st.db.insert (makeKey keyName keyType) value
                       trace := st.trace ++ [Event.dbPut (makeKey keyName keyType) value] } := by
  have hv := validKey_makeKey keyName keyType h
  unfold Profiler.InsertData mdb_put
  simp [hs, hv]

/-- C3, amended: when persistence is enabled, writing the decimal encoding of a duration `v`
with `Profiler::InsertData(region, label, ...)` and reading it with
`Profiler::RetrieveData(region, label)` returns a present value that `atol` decodes to `v`
(also for `v = 0`); after a second write of `v2` under the same region and label the read
returns the encoding of `v2`, which is the only entry left under that key. -/
theorem baseline_round_trip_when_saving (st : Statics) (region label : CStr) (v v2 : Int)
    (hsave : st.isSaveOn = true) (hl : label ∈ metricLabels) (hv : inInt64 v)
    (hv2 : inInt64 v2) :
    ∃ st1 st2 s,
      Profiler.InsertData st region label (to_string v) = some st1
      ∧ retrieved st1 region label = some s ∧ s = to_string v ∧ atol s = v
      ∧ Profiler.InsertData (Profiler.RetrieveData st1 region label).2 region label
          (to_string v2) = some st2
      ∧ retrieved st2 region label = some (to_string v2)
      ∧ atol (to_string v2) = v2
      ∧ st2.db.filter (fun e => decide (e.1 = makeKey region label))
          = [(makeKey region label, to_string v2)] := by
  have hne := metricLabels_ne_nil label hl
  have h1 := InsertData_saveOn st region label (to_string v) hne hsave
  have hs1 : (Profiler.RetrieveData
      { st with db := st.db.insert (makeKey region label) (to_string v)
                trace := st.trace ++ [Event.dbPut (makeKey region label) (to_string v)] }
      region label).2.isSaveOn = true := by
    rw [(RetrieveData_keeps _ _ _).1]; exact hsave
  have h2 := InsertData_saveOn _ region label (to_string v2) hne hs1
  refine ⟨_, _, to_string v, h1, ?_, rfl, atol_to_string v hv, h2, ?_,
    atol_to_string v2 hv2, ?_⟩
  · rw [retrieved_eq _ _ _ hne]; exact find_insert_self _ _ _
  · rw [retrieved_eq _ _ _ hne]; exact find_insert_self _ _ _
  · show List.filter _ (Store.insert _ _ _) = _
    exact entries_insert _ _ _

/-- The round trip of C3 at the values 0 and 7, with persistence enabled. -/
theorem baseline_round_trip_when_saving_witness :
    ∃ st1 st2 s,
      Profiler.InsertData ⟨true, [], []⟩ "X".toList labelAverage (to_string 0) = some st1
      ∧ retrieved st1 "X".toList labelAverage = some s ∧ s = to_string 0 ∧ atol s = 0
      ∧ Profiler.InsertData (Profiler.RetrieveData st1 "X".toList labelAverage).2 "X".toList
          labelAverage (to_string 7) = some st2
      ∧ retrieved st2 "X".toList labelAverage = some (to_string 7)
      ∧ atol (to_string 7) = 7
      ∧ st2.db.filter (fun e => decide (e.1 = makeKey "X".toList labelAverage))
          = [(makeKey "X".toList labelAverage, to_string 7)] :=
  baseline_round_trip_when_saving ⟨true, [], []⟩ "X".toList labelAverage 0 7 rfl (by decide)
    (by decide) (by decide)

/-- C3 as stated fails in the default state: with persistence disabled `InsertData` returns
before writing, so on an empty store the read after the write finds nothing. -/
theorem baseline_round_trip_fails_when_not_saving :
    (Profiler.InsertData ⟨false, [], []⟩ "X".toList labelAverage (to_string 5)).map
      (fun st1 => retrieved st1 "X".toList labelAverage) = some none := by
  decide

/-! ### Keys and the effect of a reporting pass (C4) -/

theorem makeKey_inj (r1 r2 l1 l2 : CStr) (h1 : l1 ∈ metricLabels)
    (h2 : l2 ∈ metricLabels) (f1 : (r1 ++ l1).length ≤ 255) (f2 : (r2 ++ l2).length ≤ 255)
    (hk : makeKey r1 l1 = makeKey r2 l2) : r1 = r2 ∧ l1 = l2 := by
  unfold makeKey at hk
  rw [List.take_of_length_le f1, List.take_of_length_le f2] at hk
  have hr := congrArg List.reverse hk
  simp only [List.reverse_append] at hr
  simp only [metricLabels, List.mem_cons, List.mem_singleton, List.not_mem_nil, or_false]
    at h1 h2
  rcases h1 with rfl | rfl | rfl | rfl | rfl | rfl <;>
    rcases h2 with rfl | rfl | rfl | rfl | rfl | rfl <;>
    first
    | exact ⟨List.append_cancel_right hk, rfl⟩
    | (exfalso
       simp [labelAverage, labelMedian, labelWorst, labelBest, labelWorst5, labelBest5] at hr)

theorem metricLabels_length : ∀ l ∈ metricLabels, l.length ≤ 7 := by decide

theorem key_fits (name l : CStr) (hn : name.length ≤ 248) (hl : l ∈ metricLabels) :
    (name ++ l).length ≤ 255 := by
  have := metricLabels_length l hl
  rw [List.length_append]; omega

theorem find_foldl_insert_of_not_mem (name : CStr) (ws : List (CStr × Int)) (db : Store)
    (k : CStr) (h : ∀ p ∈ ws, makeKey name p.1 ≠ k) :
    (ws.foldl (fun db p => db.insert (makeKey name p.1) (to_string p.2)) db).find k
      = db.find k := by
  induction ws generalizing db with
  | nil => rfl
  | cons p rest ih =>
    rw [List.foldl_cons, ih _ (fun q hq => h q (List.mem_cons_of_mem _ hq))]
    exact find_insert_ne _ _ _ _ (fun e => h p (List.mem_cons_self _ _) e.symm)

theorem find_foldl_insert_of_mem (name : CStr) (ws : List (CStr × Int)) (db : Store)
    (hnd : (ws.map (fun p => makeKey name p.1)).Nodup) (p : CStr × Int) (hp : p ∈ ws) :
    (ws.foldl (fun db p => db.insert (makeKey name p.1) (to_string p.2)) db).find
        (makeKey name p.1) = some (to_string p.2) := by
  induction ws generalizing db with
  | nil => simp at hp
  | cons q rest ih =>
    rw [List.map_cons, List.nodup_cons] at hnd
    rw [List.foldl_cons]
    rcases List.mem_cons.mp hp with h | h
    · subst h
      rw [find_foldl_insert_of_not_mem]
      · exact find_insert_self _ _ _
      · intro q hq e
        exact hnd.1 (e ▸ List.mem_map_of_mem (fun p => makeKey name p.1) hq)
    · exact ih _ hnd.2 h

theorem reportLines_keys_nodup (name : CStr) (hn : name.length ≤ 248) (n : Nat) (s : Stats) :
    ((reportLines n s).map (fun p => makeKey name p.1)).Nodup := by
  have h1 : (reportLines n s).map (fun p => makeKey name p.1)
      = ((reportLines n s).map (fun p => p.1)).map (makeKey name) := by
    rw [List.map_map]; rfl
  rw [h1]
  have hsub : ∀ l ∈ (reportLines n s).map (fun p => p.1), l ∈ metricLabels := by
    intro l hl
    obtain ⟨p, hp, rfl⟩ := List.mem_map.mp hl
    exact reportLines_mem n s p hp
  apply List.Nodup.map_on
  · intro a ha b hb e
    exact (makeKey_inj name name a b (hsub a ha) (hsub b hb)
      (key_fits name a hn (hsub a ha)) (key_fits name b hn (hsub b hb)) e).2
  · rw [reportLines_map]
    split <;> decide

theorem printAll_accesses (name : CStr) (unit : String) (divider : Nat)
    (lines : List (CStr × Int)) (hl : ∀ p ∈ lines, p.1 ≠ []) (st : Statics) :
    ∃ st1 evs, printAll name unit divider st lines = some st1
      ∧ st1.trace = st.trace ++ evs
      ∧ (∀ p ∈ lines, Event.dbGet (makeKey name p.1) ∈ evs)
      ∧ (st.isSaveOn = false → ∀ e ∈ evs, ∀ k v, e ≠ Event.dbPut k v) := by
  induction lines generalizing st with
  | nil => exact ⟨st, [], rfl, by simp, by simp, by simp⟩
  | cons p rest ih =>
    obtain ⟨label, current⟩ := p
    have hlab : label ≠ [] := hl (label, current) (List.mem_cons_self _ _)
    obtain ⟨cmp, hp, -⟩ := printWithComparison_spec name unit divider st label current hlab
    obtain ⟨st2, evs2, h1, h2, h3, h4⟩ :=
      ih (fun q hq => hl q (List.mem_cons_of_mem _ hq)) _
    refine ⟨st2, ((Event.dbGet (makeKey name label)
      :: (if (st.db.find (makeKey name label)).isSome then []
          else [Event.keyNotFound (makeKey name label)]))
      ++ [Event.metric label (shownValue current divider) unit cmp]
      ++ (if st.isSaveOn
          then [Event.dbPut (makeKey name label) (to_string current)] else [])) ++ evs2,
      ?_, ?_, ?_, ?_⟩
    · simp only [printAll, hp, Option.bind]; exact h1
    · rw [h2]; simp only [List.append_assoc]
    · intro q hq
      rcases List.mem_cons.mp hq with h | h
      · subst h; simp
      · exact List.mem_append_right _ (h3 q h)
    · intro hs e he k v
      rcases List.mem_append.mp he with h | h
      · intro hc; subst hc
        cases hf : (st.db.find (makeKey name label)).isSome <;> simp [hs, hf] at h
      · exact h4 hs e h k v

theorem LogData_effect (o : ProfilerObject) (st : Statics) :
    ∃ o1 evs st1, o.LogData st = some (o1, st1)
      ∧ st1.isSaveOn = st.isSaveOn
      ∧ st1.trace = st.trace ++ evs
      ∧ (o.data ≠ [] → ∀ q ∈ reportLines o.data.length (computeStats (stdSort o.data)),
          Event.dbGet (makeKey o.name q.1) ∈ evs)
      ∧ (st.isSaveOn = false → st1.db = st.db ∧ ∀ e ∈ evs, ∀ k v, e ≠ Event.dbPut k v)
      ∧ (st.isSaveOn = true →
          (∀ k, (o.data ≠ [] → ∀ q ∈ reportLines o.data.length (computeStats (stdSort o.data)),
              makeKey o.name q.1 ≠ k) → st1.db.find k = st.db.find k)
          ∧ (o.data ≠ [] → o.name.length ≤ 248 →
              ∀ q ∈ reportLines o.data.length (computeStats (stdSort o.data)),
                st1.db.find (makeKey o.name q.1) = some (to_string q.2))) := by
  by_cases h0 : o.data = []
  · refine ⟨o, [], st, ?_, rfl, by simp, fun h => absurd h0 h, fun _ => ⟨rfl, by simp⟩,
      fun _ => ⟨fun _ _ => rfl, fun h => absurd h0 h⟩⟩
    unfold ProfilerObject.LogData; simp [h0]
  · obtain ⟨st1, evs, h1, h2, h3, -, -, h6⟩ := printAll_spec o.name
      (selectUnit (computeStats (stdSort o.data)).worst).1
      (selectUnit (computeStats (stdSort o.data)).worst).2
      (reportLines (stdSort o.data).length (computeStats (stdSort o.data)))
      (reportLines_labels _ _) { st with trace := st.trace ++ [Event.header o.name] }
    obtain ⟨st1b, evsb, g1, g2, g3, g4⟩ := printAll_accesses o.name
      (selectUnit (computeStats (stdSort o.data)).worst).1
      (selectUnit (computeStats (stdSort o.data)).worst).2
      (reportLines (stdSort o.data).length (computeStats (stdSort o.data)))
      (reportLines_labels _ _) { st with trace := st.trace ++ [Event.header o.name] }
    rw [h1] at g1
    cases g1
    have hev : evsb = evs := by
      rw [h3] at g2
      exact (List.append_cancel_left g2).symm
    subst hev
    rw [stdSort_length] at h6 g3
    refine ⟨{ o with data := stdSort o.data }, Event.header o.name :: evsb, st1, ?_, h2, ?_,
      ?_, ?_, ?_⟩
    · rw [LogData_eq_printAll o st h0, h1]; rfl
    · rw [h3]; simp
    · intro _ q hq
      exact List.mem_cons_of_mem _ (g3 q hq)
    · intro hs
      refine ⟨by rw [h6]; simp [hs], ?_⟩
      intro e he k v
      rcases List.mem_cons.mp he with h | h
      · rw [h]; intro hc; cases hc
      · exact g4 hs e h k v
    · intro hs
      simp only [hs, if_true] at h6
      refine ⟨?_, ?_⟩
      · intro k hk
        rw [h6]
        exact find_foldl_insert_of_not_mem _ _ _ _ (hk h0)
      · intro _ hn q hq
        rw [h6]
        exact find_foldl_insert_of_mem _ _ _ (reportLines_keys_nodup o.name hn _ _) q hq

theorem logAll_effect (reg : List (Nat × ProfilerObject)) (st : Statics) :
    ∃ reg1 evs st1, Profiler.logAll reg st = some (reg1, st1)
      ∧ st1.isSaveOn = st.isSaveOn
      ∧ st1.trace = st.trace ++ evs
      ∧ (∀ e ∈ reg, e.2.data ≠ [] →
          ∀ q ∈ reportLines e.2.data.length (computeStats (stdSort e.2.data)),
            Event.dbGet (makeKey e.2.name q.1) ∈ evs)
      ∧ (st.isSaveOn = false → st1.db = st.db ∧ ∀ e ∈ evs, ∀ k v, e ≠ Event.dbPut k v)
      ∧ (st.isSaveOn = true →
          (∀ k, (∀ e ∈ reg, e.2.data ≠ [] →
              ∀ q ∈ reportLines e.2.data.length (computeStats (stdSort e.2.data)),
                makeKey e.2.name q.1 ≠ k) → st1.db.find k = st.db.find k)
          ∧ ((∀ e ∈ reg, e.2.data ≠ [] → e.2.name.length ≤ 248) →
              reg.Pairwise (fun a b => a.2.data ≠ [] → b.2.data ≠ [] → a.2.name ≠ b.2.name) →
              ∀ e ∈ reg, e.2.data ≠ [] →
                ∀ q ∈ reportLines e.2.data.length (computeStats (stdSort e.2.data)),
                  st1.db.find (makeKey e.2.name q.1) = some (to_string q.2))) := by
  induction reg generalizing st with
  | nil =>
    exact ⟨[], [], st, rfl, rfl, by simp, by simp, fun _ => ⟨rfl, by simp⟩,
      fun _ => ⟨fun _ _ => rfl, by simp⟩⟩
  | cons a rest ih =>
    obtain ⟨addr, o⟩ := a
    obtain ⟨o1, evs1, st1, a1, a2, a3, a4, a5, a6⟩ := LogData_effect o st
    obtain ⟨reg2, evs2, st2, b1, b2, b3, b4, b5, b6⟩ := ih st1
    refine ⟨(addr, o1) :: reg2, evs1 ++ evs2, st2, ?_, by rw [b2, a2], ?_, ?_, ?_, ?_⟩
    · simp only [Profiler.logAll, a1, b1, Option.bind]
    · rw [b3, a3, List.append_assoc]
    · intro e he hd q hq
      rcases List.mem_cons.mp he with h | h
      · subst h; exact List.mem_append_left _ (a4 hd q hq)
      · exact List.mem_append_right _ (b4 e h hd q hq)
    · intro hs
      obtain ⟨c1, c2⟩ := a5 hs
      obtain ⟨d1, d2⟩ := b5 (by rw [a2]; exact hs)
      refine ⟨by rw [d1, c1], ?_⟩
      intro e he k v
      rcases List.mem_append.mp he with h | h
      · exact c2 e h k v
      · exact d2 e h k v
    · intro hs
      obtain ⟨c1, c2⟩ := a6 hs
      obtain ⟨d1, d2⟩ := b6 (by rw [a2]; exact hs)
      refine ⟨?_, ?_⟩
      · intro k hk
        rw [d1 k (fun e he => hk e (List.mem_cons_of_mem _ he)),
          c1 k (hk (addr, o) (List.mem_cons_self _ _))]
      · intro hfit hdist e he hd q hq
        rw [List.pairwise_cons] at hdist
        rcases List.mem_cons.mp he with h | h
        · subst h
          have hn : o.name.length ≤ 248 := hfit _ (List.mem_cons_self _ _) hd
          have hqm := reportLines_mem _ _ q hq
          rw [d1 _ ?_]
          · exact c2 hd hn q hq
          · intro e2 he2 hd2 q2 hq2 hk
            have hn2 : e2.2.name.length ≤ 248 := hfit _ (List.mem_cons_of_mem _ he2) hd2
            have hqm2 := reportLines_mem _ _ q2 hq2
            have := (makeKey_inj _ _ _ _ hqm2 hqm (key_fits _ _ hn2 hqm2)
              (key_fits _ _ hn hqm) hk).1
            exact hdist.1 e2 he2 hd hd2 this.symm
        · exact d2 (fun e he => hfit e (List.mem_cons_of_mem _ he)) hdist.2 e h hd q hq

/-- C4, amended: one reporting pass always succeeds, keeps the persistence flag, and reads
the baseline of every reported (region, label).  With persistence disabled the store is
unchanged and no write is issued.  With persistence enabled no key other than the reported
keys changes, and, when the regions that have samples carry pairwise distinct names of at most
248 characters (so that no key is truncated), every reported (region, label) afterwards holds
the decimal encoding of the current unscaled value. -/
theorem reporting_pass_store_effect (p : Profiler) :
    ∃ p1 evs, p.LogData = some p1
      ∧ p1.statics.isSaveOn = p.statics.isSaveOn
      ∧ p1.statics.trace = p.statics.trace ++ evs
      ∧ (∀ e ∈ p.data, e.2.data ≠ [] →
          ∀ q ∈ reportLines e.2.data.length (computeStats (stdSort e.2.data)),
            Event.dbGet (makeKey e.2.name q.1) ∈ evs)
      ∧ (p.statics.isSaveOn = false →
          p1.statics.db = p.statics.db ∧ ∀ e ∈ evs, ∀ k v, e ≠ Event.dbPut k v)
      ∧ (p.statics.isSaveOn = true →
          (∀ k, (∀ e ∈ p.data, e.2.data ≠ [] →
              ∀ q ∈ reportLines e.2.data.length (computeStats (stdSort e.2.data)),
                makeKey e.2.name q.1 ≠ k) → p1.statics.db.find k = p.statics.db.find k)
          ∧ ((∀ e ∈ p.data, e.2.data ≠ [] → e.2.name.length ≤ 248) →
              p.data.Pairwise
                (fun a b => a.2.data ≠ [] → b.2.data ≠ [] → a.2.name ≠ b.2.name) →
              ∀ e ∈ p.data, e.2.data ≠ [] →
                ∀ q ∈ reportLines e.2.data.length (computeStats (stdSort e.2.data)),
                  retrieved p1.statics e.2.name q.1 = some (to_string q.2))) := by
  obtain ⟨reg1, evs, st1, h1, h2, h3, h4, h5, h6⟩ := logAll_effect p.data p.statics
  refine ⟨{ data := reg1, statics := st1 }, evs, ?_, h2, h3, h4, h5, ?_⟩
  · unfold Profiler.LogData; rw [h1]; rfl
  · intro hs
    obtain ⟨c1, c2⟩ := h6 hs
    refine ⟨c1, ?_⟩
    intro hfit hdist e he hd q hq
    rw [retrieved_eq _ _ _ (reportLines_labels _ _ q hq)]
    exact c2 hfit hdist e he hd q hq

set_option maxRecDepth 100000 in
/-- C4 as stated fails for a region name of 255 characters: the four keys are truncated to
the same 255 characters, so after a pass with persistence enabled the entry read for
(region, Average) holds the Best value 10 and not the Average value 20.  It also fails when
two recorders, registered under different addresses, carry the same region name: the entry
then holds the value of the recorder reported last, 20, and not the 10 of the first. -/
theorem reporting_pass_truncated_keys_collide :
    (Profiler.LogData
        { data := [(0, { name := List.replicate 255 'a', isTracking := false, startTime := 0,
                         data := [10, 20, 30] })]
          statics := { isSaveOn := true, db := [], trace := [] } }).map
      (fun p1 => retrieved p1.statics (List.replicate 255 'a') labelAverage)
      = some (some (to_string 10))
    ∧ (labelAverage, (20 : Int)) ∈ reportLines 3 (computeStats (stdSort [10, 20, 30]))
    ∧ to_string 10 ≠ to_string 20
    ∧ (Profiler.LogData
        { data := [(0, { name := "X".toList, isTracking := false, startTime := 0,
                         data := [10] }),
                   (1, { name := "X".toList, isTracking := false, startTime := 0,
                         data := [20] })]
          statics := { isSaveOn := true, db := [], trace := [] } }).map
      (fun p1 => retrieved p1.statics "X".toList labelAverage)
      = some (some (to_string 20))
    ∧ (labelAverage, (10 : Int)) ∈ reportLines 1 (computeStats (stdSort [10])) := by
  refine ⟨by decide, ?_, by decide, by decide, ?_⟩
  · unfold reportLines
    have : (computeStats (stdSort [10, 20, 30])).average = 20 := by decide
    rw [this]
    simp
  · unfold reportLines
    have : (computeStats (stdSort [10])).average = 10 := by decide
    rw [this]
    simp

/-- The pass of C4 on a recorder with three samples and a recorder without samples: the
Best entry of the first is overwritten, no entry appears for the second. -/
theorem reporting_pass_store_effect_witness :
    ∃ p1, Profiler.LogData
        { data := [(0, { name := "X".toList, isTracking := false, startTime := 0,
                         data := [30000000, 10000000, 20000000] }),
                   (1, { name := "Y".toList, isTracking := true, startTime := 5, data := [] })]
          statics := { isSaveOn := true, db := [("XBest".toList, "7".toList)], trace := [] } }
        = some p1
      ∧ retrieved p1.statics "X".toList labelBest = some (to_string 10000000)
      ∧ p1.statics.db.find "YBest".toList = none := by
  obtain ⟨p1, evs, h1, -, -, -, -, h6⟩ := reporting_pass_store_effect
    { data := [(0, { name := "X".toList, isTracking := false, startTime := 0,
                     data := [30000000, 10000000, 20000000] }),
               (1, { name := "Y".toList, isTracking := true, startTime := 5, data := [] })]
      statics := { isSaveOn := true, db := [("XBest".toList, "7".toList)], trace := [] } }
  obtain ⟨c1, c2⟩ := h6 rfl
  refine ⟨p1, h1, ?_, ?_⟩
  · have hb : (computeStats (stdSort [30000000, 10000000, 20000000])).best = 10000000 := by
      decide
    have := c2 (by decide) (by decide) _ (List.mem_cons_self _ _) (by decide)
      (labelBest, 10000000) (by unfold reportLines; rw [hb]; simp)
    exact this
  · rw [c1]
    · decide
    · intro e he hd q hq
      simp only [List.mem_cons, List.mem_singleton, List.not_mem_nil, or_false] at he
      rcases he with rfl | rfl
      · have hm := reportLines_mem _ _ q hq
        simp only [metricLabels, List.mem_cons, List.mem_singleton, List.not_mem_nil,
          or_false] at hm
        rcases hm with h | h | h | h | h | h <;> rw [h] <;> decide
      · exact absurd rfl hd

/-! ### Unit selection and key collisions (C6, C9) -/

theorem selectUnit_mono (w1 w2 : Int) (h : w1 ≤ w2) :
    (selectUnit w1).2 ≤ (selectUnit w2).2 := by
  unfold selectUnit
  split_ifs <;> simp <;> omega

theorem printAll_metricView (name : CStr) (unit : String) (divider : Nat)
    (lines : List (CStr × Int)) (hl : ∀ p ∈ lines, p.1 ≠ []) (st : Statics) :
    ∃ st1 evs, printAll name unit divider st lines = some st1
      ∧ st1.trace = st.trace ++ evs
      ∧ evs.filterMap Event.metricView
          = lines.map (fun p => (p.1, shownValue p.2 divider, unit)) := by
  induction lines generalizing st with
  | nil => exact ⟨st, [], rfl, by simp, rfl⟩
  | cons p rest ih =>
    obtain ⟨label, current⟩ := p
    have hlab : label ≠ [] := hl (label, current) (List.mem_cons_self _ _)
    obtain ⟨cmp, hp, -⟩ := printWithComparison_spec name unit divider st label current hlab
    obtain ⟨st2, evs2, h1, h2, h3⟩ := ih (fun q hq => hl q (List.mem_cons_of_mem _ hq)) _
    refine ⟨st2, ((Event.dbGet (makeKey name label)
      :: (if (st.db.find (makeKey name label)).isSome then []
          else [Event.keyNotFound (makeKey name label)]))
      ++ [Event.metric label (shownValue current divider) unit cmp]
      ++ (if st.isSaveOn
          then [Event.dbPut (makeKey name label) (to_string current)] else [])) ++ evs2,
      ?_, ?_, ?_⟩
    · simp only [printAll, hp, Option.bind]; exact h1
    · rw [h2]; simp only [List.append_assoc]
    · rw [List.filterMap_append, h3]
      cases st.isSaveOn <;> cases (st.db.find (makeKey name label)).isSome <;>
        simp [Event.metricView]

/-- C6: the unit and the divider are a function of the worst sample alone, with the four
documented thresholds; the divider is non-decreasing in the worst sample (999 gives divider
1, 1000 gives divider 1000); and the metric lines `LogData` writes for a region are, in
order, the reported labels, each with the double quotient of its own current value by the
divider selected from the maximum sample of the region, and with the unit selected from that
same maximum. -/
theorem unit_selected_by_worst (self : ProfilerObject) (st : Statics) (w w1 w2 : Int) :
    selectUnit w
      = (if w < 1000 then (" ns", 1)
         else if w < 1000000 then (" μs", 1000)
         else if w < 1000000000 then (" ms", 1000000)
         else (" s", 1000000000))
    ∧ (selectUnit (min w1 w2)).2 ≤ (selectUnit (max w1 w2)).2
    ∧ selectUnit 999 = (" ns", 1)
    ∧ selectUnit 1000 = (" μs", 1000)
    ∧ ∃ r evs, self.LogData st = some r ∧ r.2.trace = st.trace ++ evs
        ∧ (if self.data = [] then evs = []
           else (computeStats (stdSort self.data)).worst ∈ self.data
             ∧ (∀ x ∈ self.data, x ≤ (computeStats (stdSort self.data)).worst)
             ∧ evs.filterMap Event.metricView
                 = (reportLines self.data.length (computeStats (stdSort self.data))).map
                     (fun p => (p.1,
                       roundDouble (roundDouble (p.2 : ℚ)
                         / (((selectUnit (computeStats (stdSort self.data)).worst).2 : ℕ) : ℚ)),
                       (selectUnit (computeStats (stdSort self.data)).worst).1))
             ∧ ∀ e ∈ evs, ∀ l v u c, e = Event.metric l v u c →
                 u = (selectUnit (computeStats (stdSort self.data)).worst).1
                 ∧ ∃ current,
                     (l, current) ∈ reportLines self.data.length (computeStats (stdSort self.data))
                     ∧ v = roundDouble (roundDouble (current : ℚ)
                         / (((selectUnit (computeStats (stdSort self.data)).worst).2 : ℕ) : ℚ))) := by
  refine ⟨rfl, selectUnit_mono _ _ (le_trans (min_le_left _ _) (le_max_left _ _)),
    by decide, by decide, ?_⟩
  by_cases h0 : self.data = []
  · refine ⟨(self, st), [], ?_, by simp, by simp [h0]⟩
    unfold ProfilerObject.LogData; simp [h0]
  · obtain ⟨st1, evs, h1, h3, h4⟩ := printAll_metricView self.name
      (selectUnit (computeStats (stdSort self.data)).worst).1
      (selectUnit (computeStats (stdSort self.data)).worst).2
      (reportLines (stdSort self.data).length (computeStats (stdSort self.data)))
      (reportLines_labels _ _) { st with trace := st.trace ++ [Event.header self.name] }
    rw [stdSort_length] at h4
    refine ⟨({ self with data := stdSort self.data }, st1), Event.header self.name :: evs,
      ?_, ?_, ?_⟩
    · rw [LogData_eq_printAll self st h0, h1]; rfl
    · rw [h3]; simp
    · simp only [h0, if_false]
      have hview : (Event.header self.name :: evs).filterMap Event.metricView
          = (reportLines self.data.length (computeStats (stdSort self.data))).map
              (fun p => (p.1,
                roundDouble (roundDouble (p.2 : ℚ)
                  / (((selectUnit (computeStats (stdSort self.data)).worst).2 : ℕ) : ℚ)),
                (selectUnit (computeStats (stdSort self.data)).worst).1)) := by
        rw [List.filterMap_cons_none (by rfl), h4]
        rfl
      refine ⟨?_, ?_, hview, ?_⟩
      · exact (stdSort_perm self.data).mem_iff.mp (getLastD_mem _ (stdSort_ne_nil _ h0))
      · intro x hx
        exact sorted_le_getLast _ (stdSort_sorted _) x ((stdSort_perm self.data).mem_iff.mpr hx)
      · intro e he l v u c hc
        subst hc
        have hm : (l, v, u) ∈ (Event.header self.name :: evs).filterMap Event.metricView :=
          List.mem_filterMap.mpr ⟨_, he, rfl⟩
        rw [hview] at hm
        obtain ⟨p, hp, hpe⟩ := List.mem_map.mp hm
        simp only [Prod.mk.injEq] at hpe
        obtain ⟨e1, e2, e3⟩ := hpe
        exact ⟨e3.symm, p.2, by rw [← e1]; exact hp, e2.symm⟩

/-- C9: for the six metric labels the store key is collision-free as long as it is not
truncated: when `region ++ label` has at most 255 characters for both pairs, equal keys imply
equal regions and equal labels. -/
theorem key_collision_free (r1 r2 l1 l2 : CStr) (h1 : l1 ∈ metricLabels)
    (h2 : l2 ∈ metricLabels) (f1 : (r1 ++ l1).length ≤ 255) (f2 : (r2 ++ l2).length ≤ 255)
    (hk : makeKey r1 l1 = makeKey r2 l2) : r1 = r2 ∧ l1 = l2 :=
  makeKey_inj r1 r2 l1 l2 h1 h2 f1 f2 hk

/-- The implication of C9 at one region and one label. -/
theorem key_collision_free_witness :
    makeKey "Game".toList labelWorst = makeKey "Game".toList labelWorst
      ∧ ("Game".toList = "Game".toList ∧ labelWorst = labelWorst) :=
  ⟨rfl, key_collision_free "Game".toList "Game".toList labelWorst labelWorst (by decide)
    (by decide) (by decide) (by decide) rfl⟩

/-! ### Rounding to binary64 -/

theorem roundHalfEven_intCast (m : ℤ) : roundHalfEven (m : ℚ) = m := by
  unfold roundHalfEven
  simp

theorem roundHalfEven_eq_of_near (x : ℚ) (m : ℤ) (h : |x - m| < 1 / 2) :
    roundHalfEven x = m := by
  rw [abs_lt] at h
  obtain ⟨h1, h2⟩ := h
  by_cases hx : (m : ℚ) ≤ x
  · have hf : ⌊x⌋ = m := Int.floor_eq_iff.mpr ⟨hx, by linarith⟩
    unfold roundHalfEven
    simp only [hf]
    rw [if_pos (by linarith)]
  · push_neg at hx
    have hf : ⌊x⌋ = m - 1 := Int.floor_eq_iff.mpr ⟨by push_cast; linarith, by push_cast; linarith⟩
    unfold roundHalfEven
    simp only [hf]
    rw [if_neg (by push_cast; linarith), if_pos (by push_cast; linarith)]
    ring

theorem roundHalfEven_cases (x : ℚ) :
    roundHalfEven x = ⌊x⌋ ∨ roundHalfEven x = ⌊x⌋ + 1 := by
  unfold roundHalfEven
  simp only
  split_ifs <;> simp

theorem roundHalfEven_sub_le (x : ℚ) : |(roundHalfEven x : ℚ) - x| ≤ 1 / 2 := by
  have h1 : (⌊x⌋ : ℚ) ≤ x := Int.floor_le x
  have h2 : x < ⌊x⌋ + 1 := Int.lt_floor_add_one x
  rw [abs_le]
  unfold roundHalfEven
  simp only
  split_ifs with a b c
  · constructor <;> linarith
  · push_cast; constructor <;> linarith
  · constructor <;> linarith
  · push_cast; constructor <;> linarith

theorem roundHalfEven_mono {a b : ℚ} (h : a ≤ b) : roundHalfEven a ≤ roundHalfEven b := by
  have hfl : ⌊a⌋ ≤ ⌊b⌋ := Int.floor_mono h
  rcases lt_or_eq_of_le hfl with hlt | heq
  · have ha : roundHalfEven a ≤ ⌊a⌋ + 1 := by
      rcases roundHalfEven_cases a with h1 | h1 <;> omega
    have hb : ⌊b⌋ ≤ roundHalfEven b := by
      rcases roundHalfEven_cases b with h1 | h1 <;> omega
    omega
  · unfold roundHalfEven
    simp only [heq]
    have hr : a - ⌊b⌋ ≤ b - ⌊b⌋ := by linarith
    split_ifs <;> first | omega | (exfalso; linarith)

theorem roundHalfEven_nonneg {x : ℚ} (h : 0 ≤ x) : 0 ≤ roundHalfEven x := by
  have := roundHalfEven_mono h
  rwa [show ((0 : ℚ)) = ((0 : ℤ) : ℚ) by simp, roundHalfEven_intCast] at this

theorem two_zpow_pos (e : ℤ) : (0 : ℚ) < 2 ^ e := zpow_pos (by norm_num) e

theorem log_two_spec (x : ℚ) (hx : 0 < x) :
    (2 : ℚ) ^ Int.log 2 x ≤ x ∧ x < (2 : ℚ) ^ (Int.log 2 x + 1) := by
  have h1 := Int.zpow_log_le_self (b := 2) (by norm_num) hx
  have h2 := Int.lt_zpow_succ_log_self (b := 2) (by norm_num) x
  simp only [Nat.cast_ofNat] at h1 h2
  exact ⟨h1, h2⟩

theorem log_two_unique (x : ℚ) (e : ℤ) (h1 : (2 : ℚ) ^ e ≤ x) (h2 : x < (2 : ℚ) ^ (e + 1)) :
    Int.log 2 x = e := by
  have hx : 0 < x := lt_of_lt_of_le (two_zpow_pos e) h1
  have a := (Int.zpow_le_iff_le_log (b := 2) (by norm_num) hx (x := e)).mp
    (by simpa using h1)
  have b := (Int.lt_zpow_iff_log_lt (b := 2) (by norm_num) hx (x := e + 1)).mp
    (by simpa using h2)
  omega

theorem roundDouble_of_pos (x : ℚ) (hx : 0 < x) :
    roundDouble x
      = (roundHalfEven (x / (2 : ℚ) ^ (Int.log 2 x - 52)) : ℚ) * (2 : ℚ) ^ (Int.log 2 x - 52) := by
  unfold roundDouble
  simp only [hx.ne', if_false, abs_of_pos hx]

theorem roundDouble_zero : roundDouble 0 = 0 := by
  unfold roundDouble; simp

theorem roundDouble_eq (x : ℚ) (e m : ℤ) (h1 : (2 : ℚ) ^ e ≤ x) (h2 : x < (2 : ℚ) ^ (e + 1))
    (h3 : |x / (2 : ℚ) ^ (e - 52) - m| < 1 / 2) : roundDouble x = m * (2 : ℚ) ^ (e - 52) := by
  have hx : 0 < x := lt_of_lt_of_le (two_zpow_pos e) h1
  rw [roundDouble_of_pos x hx, log_two_unique x e h1 h2, roundHalfEven_eq_of_near _ m h3]

theorem significand_bounds (x : ℚ) (hx : 0 < x) :
    (2 : ℚ) ^ (52 : ℤ) ≤ x / (2 : ℚ) ^ (Int.log 2 x - 52)
    ∧ x / (2 : ℚ) ^ (Int.log 2 x - 52) < (2 : ℚ) ^ (53 : ℤ) := by
  obtain ⟨h1, h2⟩ := log_two_spec x hx
  have hu := two_zpow_pos (Int.log 2 x - 52)
  constructor
  · rw [le_div_iff₀ hu, ← zpow_add₀ (by norm_num : (2 : ℚ) ≠ 0)]
    simpa using h1
  · rw [div_lt_iff₀ hu, ← zpow_add₀ (by norm_num : (2 : ℚ) ≠ 0)]
    have : (53 : ℤ) + (Int.log 2 x - 52) = Int.log 2 x + 1 := by ring
    rw [this]; exact h2

theorem roundDouble_bounds (x : ℚ) (hx : 0 < x) :
    (2 : ℚ) ^ Int.log 2 x ≤ roundDouble x ∧ roundDouble x ≤ (2 : ℚ) ^ (Int.log 2 x + 1) := by
  obtain ⟨h1, h2⟩ := significand_bounds x hx
  have hu := two_zpow_pos (Int.log 2 x - 52)
  have c52 : ((2 ^ 52 : ℤ) : ℚ) = (2 : ℚ) ^ (52 : ℤ) := by norm_num
  have c53 : ((2 ^ 53 : ℤ) : ℚ) = (2 : ℚ) ^ (53 : ℤ) := by norm_num
  have a : (2 ^ 52 : ℤ) ≤ roundHalfEven (x / (2 : ℚ) ^ (Int.log 2 x - 52)) := by
    have h : ((2 ^ 52 : ℤ) : ℚ) ≤ x / (2 : ℚ) ^ (Int.log 2 x - 52) := by rw [c52]; exact h1
    have := roundHalfEven_mono h
    rwa [roundHalfEven_intCast] at this
  have b : roundHalfEven (x / (2 : ℚ) ^ (Int.log 2 x - 52)) ≤ (2 ^ 53 : ℤ) := by
    have h : x / (2 : ℚ) ^ (Int.log 2 x - 52) ≤ ((2 ^ 53 : ℤ) : ℚ) := by rw [c53]; exact h2.le
    have := roundHalfEven_mono h
    rwa [roundHalfEven_intCast] at this
  have a2 : (2 : ℚ) ^ (52 : ℤ) ≤ (roundHalfEven (x / (2 : ℚ) ^ (Int.log 2 x - 52)) : ℚ) := by
    rw [← c52]; exact_mod_cast a
  have b2 : (roundHalfEven (x / (2 : ℚ) ^ (Int.log 2 x - 52)) : ℚ) ≤ (2 : ℚ) ^ (53 : ℤ) := by
    rw [← c53]; exact_mod_cast b
  rw [roundDouble_of_pos x hx]
  constructor
  · calc (2 : ℚ) ^ Int.log 2 x = (2 : ℚ) ^ (52 : ℤ) * (2 : ℚ) ^ (Int.log 2 x - 52) := by
          rw [← zpow_add₀ (by norm_num : (2 : ℚ) ≠ 0)]; congr 1; ring
      _ ≤ _ := mul_le_mul_of_nonneg_right a2 hu.le
  · calc _ ≤ (2 : ℚ) ^ (53 : ℤ) * (2 : ℚ) ^ (Int.log 2 x - 52) :=
          mul_le_mul_of_nonneg_right b2 hu.le
      _ = (2 : ℚ) ^ (Int.log 2 x + 1) := by
          rw [← zpow_add₀ (by norm_num : (2 : ℚ) ≠ 0)]; congr 1; ring

theorem roundDouble_pos (x : ℚ) (hx : 0 < x) : 0 < roundDouble x :=
  lt_of_lt_of_le (two_zpow_pos _) (roundDouble_bounds x hx).1

theorem roundDouble_nonneg (x : ℚ) (hx : 0 ≤ x) : 0 ≤ roundDouble x := by
  rcases hx.eq_or_lt with h | h
  · rw [← h, roundDouble_zero]
  · exact (roundDouble_pos x h).le

theorem roundDouble_mono_pos (x y : ℚ) (hx : 0 < x) (hxy : x ≤ y) :
    roundDouble x ≤ roundDouble y := by
  have hy : 0 < y := lt_of_lt_of_le hx hxy
  have hlog : Int.log 2 x ≤ Int.log 2 y := Int.log_mono_right hx hxy
  rcases lt_or_eq_of_le hlog with hlt | heq
  · calc roundDouble x ≤ (2 : ℚ) ^ (Int.log 2 x + 1) := (roundDouble_bounds x hx).2
      _ ≤ (2 : ℚ) ^ Int.log 2 y := zpow_le_zpow_right₀ (by norm_num) (by omega)
      _ ≤ roundDouble y := (roundDouble_bounds y hy).1
  · rw [roundDouble_of_pos x hx, roundDouble_of_pos y hy, heq]
    have hu := two_zpow_pos (Int.log 2 y - 52)
    apply mul_le_mul_of_nonneg_right _ hu.le
    exact_mod_cast roundHalfEven_mono (div_le_div_of_nonneg_right hxy hu.le)

theorem roundDouble_mono (x y : ℚ) (hx : 0 ≤ x) (hxy : x ≤ y) :
    roundDouble x ≤ roundDouble y := by
  rcases hx.eq_or_lt with h | h
  · rw [← h, roundDouble_zero]; exact roundDouble_nonneg y (le_trans hx hxy)
  · exact roundDouble_mono_pos x y h hxy

theorem roundDouble_error (x : ℚ) (hx : 0 < x) :
    |roundDouble x - x| ≤ x / 2 ^ 53 := by
  obtain ⟨h1, -⟩ := log_two_spec x hx
  have hu := two_zpow_pos (Int.log 2 x - 52)
  have hr := roundHalfEven_sub_le (x / (2 : ℚ) ^ (Int.log 2 x - 52))
  rw [roundDouble_of_pos x hx]
  have e1 : (roundHalfEven (x / (2 : ℚ) ^ (Int.log 2 x - 52)) : ℚ) * (2 : ℚ) ^ (Int.log 2 x - 52) - x
      = ((roundHalfEven (x / (2 : ℚ) ^ (Int.log 2 x - 52)) : ℚ)
          - x / (2 : ℚ) ^ (Int.log 2 x - 52)) * (2 : ℚ) ^ (Int.log 2 x - 52) := by
    field_simp
  rw [e1, abs_mul, abs_of_pos hu]
  have e2 : (2 : ℚ) ^ (Int.log 2 x - 52) = (2 : ℚ) ^ Int.log 2 x / 2 ^ 52 := by
    rw [zpow_sub₀ (by norm_num : (2 : ℚ) ≠ 0)]; norm_num
  calc _ ≤ (1 / 2) * (2 : ℚ) ^ (Int.log 2 x - 52) := mul_le_mul_of_nonneg_right hr hu.le
    _ = (2 : ℚ) ^ Int.log 2 x / 2 ^ 53 := by rw [e2]; ring
    _ ≤ x / 2 ^ 53 := div_le_div_of_nonneg_right h1 (by positivity)

theorem roundDouble_natCast_mul_zpow (j : ℕ) (s : ℤ) (hj : j < 2 ^ 53) :
    roundDouble ((j : ℚ) * (2 : ℚ) ^ s) = (j : ℚ) * (2 : ℚ) ^ s := by
  rcases Nat.eq_zero_or_pos j with h0 | hpos
  · subst h0; simp [roundDouble_zero]
  have hs := two_zpow_pos s
  have ha1 : 2 ^ Nat.log 2 j ≤ j := Nat.pow_log_le_self 2 hpos.ne'
  have ha2 : j < 2 ^ (Nat.log 2 j + 1) := Nat.lt_pow_succ_log_self (by norm_num) j
  have ha : Nat.log 2 j < 53 :=
    (Nat.pow_lt_pow_iff_right (by norm_num : 1 < 2)).mp (lt_of_le_of_lt ha1 hj)
  obtain ⟨t, ht⟩ : ∃ t : ℕ, Nat.log 2 j + t = 52 := ⟨52 - Nat.log 2 j, by omega⟩
  have q1 : ((2 : ℚ) ^ (Nat.log 2 j : ℤ)) ≤ (j : ℚ) := by
    rw [zpow_natCast]; exact_mod_cast ha1
  have q2 : (j : ℚ) < ((2 : ℚ) ^ ((Nat.log 2 j : ℤ) + 1)) := by
    have : ((Nat.log 2 j : ℤ) + 1) = ((Nat.log 2 j + 1 : ℕ) : ℤ) := by push_cast; ring
    rw [this, zpow_natCast]; exact_mod_cast ha2
  have e1 : (2 : ℚ) ^ ((Nat.log 2 j : ℤ) + s) ≤ (j : ℚ) * (2 : ℚ) ^ s := by
    rw [zpow_add₀ (by norm_num : (2 : ℚ) ≠ 0)]
    exact mul_le_mul_of_nonneg_right q1 hs.le
  have e2 : (j : ℚ) * (2 : ℚ) ^ s < (2 : ℚ) ^ ((Nat.log 2 j : ℤ) + s + 1) := by
    have : (Nat.log 2 j : ℤ) + s + 1 = ((Nat.log 2 j : ℤ) + 1) + s := by ring
    rw [this, zpow_add₀ (by norm_num : (2 : ℚ) ≠ 0)]
    exact mul_lt_mul_of_pos_right q2 hs
  have hexp : (Nat.log 2 j : ℤ) + s - 52 = s - (t : ℤ) := by omega
  have hdiv : (j : ℚ) * (2 : ℚ) ^ s / (2 : ℚ) ^ ((Nat.log 2 j : ℤ) + s - 52)
      = ((j * 2 ^ t : ℕ) : ℤ) := by
    rw [hexp, zpow_sub₀ (by norm_num : (2 : ℚ) ≠ 0), zpow_natCast]
    push_cast
    field_simp
    ring
  rw [roundDouble_eq _ ((Nat.log 2 j : ℤ) + s) ((j * 2 ^ t : ℕ) : ℤ) e1 e2
    (by rw [hdiv]; simp)]
  rw [hexp, zpow_sub₀ (by norm_num : (2 : ℚ) ≠ 0), zpow_natCast]
  push_cast
  field_simp
  ring

theorem roundDouble_natCast (j : ℕ) (hj : j < 2 ^ 53) : roundDouble (j : ℚ) = j := by
  have := roundDouble_natCast_mul_zpow j 0 hj
  simpa using this

theorem doubleOfInt_natCast (n : ℕ) (h : n < 2 ^ 53) : doubleOfInt (n : ℤ) = n := by
  unfold doubleOfInt
  push_cast
  exact roundDouble_natCast n h

theorem double_0_95_eq : double_0_95 = 4278419646001971 / 4503599627370496 := by
  unfold double_0_95
  rw [roundDouble_eq (95 / 100) (-1) 8556839292003942 (by norm_num) (by norm_num)
    (by rw [abs_lt]; constructor <;> norm_num)]
  norm_num

theorem double_0_05_eq : double_0_05 = 3602879701896397 / 72057594037927936 := by
  unfold double_0_05
  rw [roundDouble_eq (5 / 100) (-5) 7205759403792794 (by norm_num) (by norm_num)
    (by rw [abs_lt]; constructor <;> norm_num)]
  norm_num

/-! ### Percentile indices (C10) -/

theorem sizeOfDouble_eq (y : ℚ) (k : ℕ) (h1 : (k : ℚ) ≤ y) (h2 : y < k + 1) :
    sizeOfDouble y = k := by
  unfold sizeOfDouble
  have : ⌊y⌋ = (k : ℤ) := Int.floor_eq_iff.mpr ⟨by exact_mod_cast h1, by exact_mod_cast h2⟩
  rw [this]; simp

theorem roundDouble_lt_succ (x : ℚ) (k : ℕ) (hx : 0 ≤ x) (hk : k < 2 ^ 48)
    (h : x ≤ k + 31 / 32) : roundDouble x < k + 1 := by
  have hd : roundDouble (((32 * k + 31 : ℕ) : ℚ) * (2 : ℚ) ^ (-5 : ℤ))
      = ((32 * k + 31 : ℕ) : ℚ) * (2 : ℚ) ^ (-5 : ℤ) :=
    roundDouble_natCast_mul_zpow _ _ (by omega)
  have hval : ((32 * k + 31 : ℕ) : ℚ) * (2 : ℚ) ^ (-5 : ℤ) = k + 31 / 32 := by
    push_cast; norm_num; ring
  rw [hval] at hd
  have := roundDouble_mono x _ hx h
  rw [hd] at this
  linarith

theorem le_roundDouble_of_le (x : ℚ) (k : ℕ) (hk : k < 2 ^ 53) (h : (k : ℚ) ≤ x) :
    (k : ℚ) ≤ roundDouble x := by
  have := roundDouble_mono (k : ℚ) x (by positivity) h
  rwa [roundDouble_natCast k hk] at this

/-- When `95 n / 100` is an integer `k`, the product `0.95 * n` rounds up to `k`. -/
theorem roundDouble_095_exact (n k : ℕ) (hn : 0 < n) (hk53 : n < 2 ^ 50)
    (h : 95 * n = 100 * k) :
    roundDouble (4278419646001971 / 4503599627370496 * (n : ℚ)) = k := by
  have h19 : 19 * n = 20 * k := by omega
  have hkpos : 0 < k := by omega
  have hdvd : 19 ∣ k := by
    have : 19 ∣ 20 * k := ⟨n, h19.symm⟩
    exact (Nat.Coprime.dvd_mul_left (by norm_num : Nat.Coprime 19 20)).mp this
  have ha1 : 2 ^ Nat.log 2 k ≤ k := Nat.pow_log_le_self 2 hkpos.ne'
  have ha2 : k < 2 ^ (Nat.log 2 k + 1) := Nat.lt_pow_succ_log_self (by norm_num) k
  have hne : k ≠ 2 ^ Nat.log 2 k := by
    intro e
    rw [e] at hdvd
    have := (Nat.Prime.dvd_of_dvd_pow (by norm_num : Nat.Prime 19) hdvd)
    omega
  have ha3 : 2 ^ Nat.log 2 k + 1 ≤ k := by omega
  have ha : Nat.log 2 k < 53 :=
    (Nat.pow_lt_pow_iff_right (by norm_num : 1 < 2)).mp (lt_of_le_of_lt ha1 (by omega))
  obtain ⟨t, ht⟩ : ∃ t : ℕ, Nat.log 2 k + t = 52 := ⟨52 - Nat.log 2 k, by omega⟩
  have hnq : (n : ℚ) = 20 * (k : ℚ) / 19 := by
    have : (19 : ℚ) * n = 20 * k := by exact_mod_cast h19
    linarith
  have hx : 4278419646001971 / 4503599627370496 * (n : ℚ)
      = (k : ℚ) - 4 * k / (19 * 2 ^ 52) := by
    rw [hnq]; ring
  have hk50 : (k : ℚ) < 2 ^ 50 := by
    have : k < 2 ^ 50 := by omega
    exact_mod_cast this
  have q1 : ((2 : ℚ) ^ Nat.log 2 k) + 1 ≤ (k : ℚ) := by exact_mod_cast ha3
  have q2 : (k : ℚ) < (2 : ℚ) ^ (Nat.log 2 k + 1) := by exact_mod_cast ha2
  have hpow : (2 : ℚ) ^ (Nat.log 2 k) * (2 : ℚ) ^ t = 2 ^ 52 := by
    rw [← pow_add, ht]
  have hp : (0 : ℚ) < (2 : ℚ) ^ (Nat.log 2 k) := by positivity
  have hpt : (0 : ℚ) < (2 : ℚ) ^ t := by positivity
  have e1 : (2 : ℚ) ^ ((Nat.log 2 k : ℕ) : ℤ) ≤ (k : ℚ) - 4 * k / (19 * 2 ^ 52) := by
    rw [zpow_natCast]
    have : 4 * (k : ℚ) / (19 * 2 ^ 52) ≤ 1 := by
      rw [div_le_one (by positivity)]; nlinarith
    linarith
  have e2 : (k : ℚ) - 4 * k / (19 * 2 ^ 52) < (2 : ℚ) ^ (((Nat.log 2 k : ℕ) : ℤ) + 1) := by
    have : (((Nat.log 2 k : ℕ) : ℤ) + 1) = ((Nat.log 2 k + 1 : ℕ) : ℤ) := by push_cast; ring
    rw [this, zpow_natCast]
    have : 0 ≤ 4 * (k : ℚ) / (19 * 2 ^ 52) := by positivity
    linarith
  have hexp : ((Nat.log 2 k : ℕ) : ℤ) - 52 = -(t : ℤ) := by omega
  have hu : (2 : ℚ) ^ (((Nat.log 2 k : ℕ) : ℤ) - 52) = 1 / (2 : ℚ) ^ t := by
    rw [hexp, zpow_neg, zpow_natCast]; simp
  rw [hx, roundDouble_eq _ ((Nat.log 2 k : ℕ) : ℤ) ((k * 2 ^ t : ℕ) : ℤ) e1 e2 ?_]
  · rw [hu]; push_cast; field_simp
  · rw [hu]
    push_cast
    have e3 : ((k : ℚ) - 4 * k / (19 * 2 ^ 52)) / (1 / (2 : ℚ) ^ t) - (k : ℚ) * (2 : ℚ) ^ t
        = -(4 * k / (19 * (2 : ℚ) ^ (Nat.log 2 k))) := by
      rw [← hpow]; field_simp; ring
    rw [e3, abs_neg, abs_of_nonneg (by positivity), div_lt_iff₀ (by positivity)]
    rw [pow_succ] at q2
    nlinarith

theorem percentileIndex_eq (p : ℚ) (n : ℕ) (hn : n < 2 ^ 53) :
    percentileIndex p n = sizeOfDouble (roundDouble (p * (n : ℚ))) := by
  unfold percentileIndex doubleMul
  rw [doubleOfInt_natCast n hn]

theorem percentileIndex_095 (n : ℕ) (hn : 0 < n) (hlt : n < 2 ^ 48) :
    percentileIndex double_0_95 n = 95 * n / 100 := by
  rw [percentileIndex_eq _ n (by omega), double_0_95_eq]
  have hdm := Nat.div_add_mod (95 * n) 100
  have hmod : (95 * n) % 100 < 100 := Nat.mod_lt _ (by norm_num)
  have hk48 : 95 * n / 100 < 2 ^ 48 := by omega
  have hnq : (n : ℚ) < 2 ^ 48 := by exact_mod_cast hlt
  have hnpos : (0 : ℚ) < n := by exact_mod_cast hn
  have hq : (95 : ℚ) * n = 100 * ((95 * n / 100 : ℕ) : ℚ) + (((95 * n) % 100 : ℕ) : ℚ) := by
    exact_mod_cast hdm.symm
  have hr : (((95 * n) % 100 : ℕ) : ℚ) ≤ 99 := by
    have : (95 * n) % 100 ≤ 99 := by omega
    exact_mod_cast this
  apply sizeOfDouble_eq
  · by_cases hz : (95 * n) % 100 = 0
    · rw [roundDouble_095_exact n (95 * n / 100) hn (by omega) (by omega)]
    · have h5 : 5 ≤ (95 * n) % 100 := by omega
      have h5q : (5 : ℚ) ≤ (((95 * n) % 100 : ℕ) : ℚ) := by exact_mod_cast h5
      apply le_roundDouble_of_le _ _ (by omega)
      have : (4278419646001971 : ℚ) / 4503599627370496 * n
          = 95 * n / 100 - n / (5 * 2 ^ 52) := by ring
      rw [this, hq]
      have : (n : ℚ) / (5 * 2 ^ 52) ≤ 1 / 20 := by
        rw [div_le_div_iff₀ (by positivity) (by positivity)]; nlinarith
      linarith
  · apply roundDouble_lt_succ _ _ (by positivity) hk48
    have : (4278419646001971 : ℚ) / 4503599627370496 * n
        = 95 * n / 100 - n / (5 * 2 ^ 52) := by ring
    rw [this, hq]
    have h5 : (95 * n) % 100 ≤ 95 := by omega
    have h5q : (((95 * n) % 100 : ℕ) : ℚ) ≤ 95 := by exact_mod_cast h5
    have : 0 ≤ (n : ℚ) / (5 * 2 ^ 52) := by positivity
    linarith

theorem percentileIndex_005 (n : ℕ) (hlt : n < 2 ^ 48) :
    percentileIndex double_0_05 n = 5 * n / 100 := by
  rw [percentileIndex_eq _ n (by omega), double_0_05_eq]
  have hdm := Nat.div_add_mod (5 * n) 100
  have hk48 : 5 * n / 100 < 2 ^ 48 := by omega
  have hnq : (n : ℚ) < 2 ^ 48 := by exact_mod_cast hlt
  have hq : (5 : ℚ) * n = 100 * ((5 * n / 100 : ℕ) : ℚ) + (((5 * n) % 100 : ℕ) : ℚ) := by
    exact_mod_cast hdm.symm
  have h5 : (5 * n) % 100 ≤ 95 := by omega
  have h5q : (((5 * n) % 100 : ℕ) : ℚ) ≤ 95 := by exact_mod_cast h5
  have hx : (3602879701896397 : ℚ) / 72057594037927936 * n
      = 5 * n / 100 + n / (5 * 2 ^ 56) := by ring
  have hsmall : (n : ℚ) / (5 * 2 ^ 56) ≤ 1 / 100 := by
    rw [div_le_div_iff₀ (by positivity) (by positivity)]; nlinarith
  have hnn : 0 ≤ (n : ℚ) / (5 * 2 ^ 56) := by positivity
  have hrn : (0 : ℚ) ≤ (((5 * n) % 100 : ℕ) : ℚ) := by positivity
  apply sizeOfDouble_eq
  · apply le_roundDouble_of_le _ _ (by omega)
    rw [hx, hq]; linarith
  · apply roundDouble_lt_succ _ _ (by positivity) hk48
    rw [hx, hq]; linarith

theorem percentileIndex_lt (p : ℚ) (hp0 : 0 < p) (hp : p ≤ 24 / 25) (n : ℕ) (hn : 0 < n) :
    percentileIndex p n < n := by
  have hnq : (0 : ℚ) < n := by exact_mod_cast hn
  unfold percentileIndex doubleMul doubleOfInt sizeOfDouble
  push_cast
  have h1 := roundDouble_error (n : ℚ) hnq
  have hN : 0 < roundDouble (n : ℚ) := roundDouble_pos _ hnq
  have h2 := roundDouble_error (p * roundDouble (n : ℚ)) (by positivity)
  rw [abs_le] at h1 h2
  have hN2 : roundDouble (n : ℚ) ≤ n * (1 + 1 / 2 ^ 53) := by
    have := h1.2; field_simp at this ⊢; linarith
  have hx : roundDouble (p * roundDouble (n : ℚ)) ≤ p * roundDouble (n : ℚ) * (1 + 1 / 2 ^ 53) := by
    have := h2.2; field_simp at this ⊢; linarith
  have hfin : roundDouble (p * roundDouble (n : ℚ)) < n := by
    have a1 : p * roundDouble (n : ℚ) ≤ 24 / 25 * (n * (1 + 1 / 2 ^ 53)) :=
      mul_le_mul hp hN2 hN.le (by norm_num)
    have a2 : p * roundDouble (n : ℚ) * (1 + 1 / 2 ^ 53)
        ≤ 24 / 25 * (n * (1 + 1 / 2 ^ 53)) * (1 + 1 / 2 ^ 53) :=
      mul_le_mul_of_nonneg_right a1 (by norm_num)
    have a3 : 24 / 25 * ((n : ℚ) * (1 + 1 / 2 ^ 53)) * (1 + 1 / 2 ^ 53) < n := by
      have : (24 : ℚ) / 25 * (1 + 1 / 2 ^ 53) * (1 + 1 / 2 ^ 53) < 1 := by norm_num
      nlinarith
    linarith
  have hfl : ⌊roundDouble (p * roundDouble (n : ℚ))⌋ < (n : ℤ) := by
    rw [Int.floor_lt]; exact_mod_cast hfin
  omega

theorem double_0_95_bounds : 0 < double_0_95 ∧ double_0_95 ≤ 24 / 25 := by
  rw [double_0_95_eq]; constructor <;> norm_num

theorem double_0_05_bounds : 0 < double_0_05 ∧ double_0_05 ≤ 24 / 25 := by
  rw [double_0_05_eq]; constructor <;> norm_num

/-- C10: with `s` the ascending sort of a non-empty sample sequence of length `n`, `LogData`
computes Worst5% and Best5% as `s[(size_t)(0.95 * n)]` and `s[(size_t)(0.05 * n)]` in
binary64 arithmetic; both indices are below `n` for every `n >= 1`, so neither lookup reads
outside the samples; and for every `n < 2 ^ 48`, which covers every sample vector that fits
in memory (`2 ^ 48` samples occupy 2 PiB), the indices are `floor(95 n / 100)` and
`floor(5 n / 100)`, so that Worst5% is `s[floor(95 n / 100)]` and Best5% is
`s[floor(5 n / 100)]`. -/
theorem percentile_lookups (data s : List Int) (hne : data ≠ [])
    (hs : s.Sorted (· ≤ ·)) (hp : s.Perm data) :
    (computeStats (stdSort data)).worst5percent
      = s.getD (percentileIndex double_0_95 data.length) 0
    ∧ (computeStats (stdSort data)).best5percent
      = s.getD (percentileIndex double_0_05 data.length) 0
    ∧ percentileIndex double_0_95 data.length < s.length
    ∧ percentileIndex double_0_05 data.length < s.length
    ∧ (data.length < 2 ^ 48 →
        percentileIndex double_0_95 data.length = 95 * data.length / 100
        ∧ percentileIndex double_0_05 data.length = 5 * data.length / 100
        ∧ (computeStats (stdSort data)).worst5percent = s.getD (95 * data.length / 100) 0
        ∧ (computeStats (stdSort data)).best5percent = s.getD (5 * data.length / 100) 0
        ∧ 95 * data.length / 100 < s.length
        ∧ 5 * data.length / 100 < s.length) := by
  have hu := stdSort_unique data s hs hp
  have hlen : s.length = data.length := hp.length_eq
  have hpos : 0 < data.length := List.length_pos.mpr hne
  have h1 : (computeStats (stdSort data)).worst5percent
      = s.getD (percentileIndex double_0_95 data.length) 0 := by
    show (stdSort data).getD (percentileIndex double_0_95 (stdSort data).length) 0 = _
    rw [hu, hlen]
  have h2 : (computeStats (stdSort data)).best5percent
      = s.getD (percentileIndex double_0_05 data.length) 0 := by
    show (stdSort data).getD (percentileIndex double_0_05 (stdSort data).length) 0 = _
    rw [hu, hlen]
  refine ⟨h1, h2, ?_, ?_, ?_⟩
  · rw [hlen]
    exact percentileIndex_lt _ double_0_95_bounds.1 double_0_95_bounds.2 _ hpos
  · rw [hlen]
    exact percentileIndex_lt _ double_0_05_bounds.1 double_0_05_bounds.2 _ hpos
  · intro h48
    have e1 := percentileIndex_095 _ hpos h48
    have e2 := percentileIndex_005 _ h48
    refine ⟨e1, e2, by rw [h1, e1], by rw [h2, e2], by omega, by omega⟩

/-- The lookups of C10 at four samples: indices 3 and 0. -/
theorem percentile_lookups_witness :
    (computeStats (stdSort [30, 10, 20, 44])).worst5percent = 44
    ∧ (computeStats (stdSort [30, 10, 20, 44])).best5percent = 10 := by
  obtain ⟨h1, h2, -, -, h5⟩ := percentile_lookups [30, 10, 20, 44] [10, 20, 30, 44]
    (by decide) (by decide) (by decide)
  obtain ⟨h6, h7, -, -, -, -⟩ := h5 (by norm_num)
  rw [h6] at h1
  rw [h7] at h2
  exact ⟨h1.trans (by decide), h2.trans (by decide)⟩

theorem range_sorted (n : ℕ) : ((List.range n).map Int.ofNat).Sorted (· ≤ ·) := by
  unfold List.Sorted
  rw [List.pairwise_map]
  exact (List.pairwise_lt_range n).imp (fun h => Int.ofNat_le.mpr h.le)

theorem range_getD (n i : ℕ) (h : i < n) :
    ((List.range n).map Int.ofNat).getD i 0 = i := by
  have hl : i < ((List.range n).map Int.ofNat).length := by
    rw [List.length_map, List.length_range]; exact h
  rw [List.getD_eq_getElem _ _ hl, List.getElem_map, List.getElem_range]
  rfl

theorem range_worst5percent (n idx : ℕ) (h : percentileIndex double_0_95 n = idx)
    (hlt : idx < n) :
    (computeStats (stdSort ((List.range n).map Int.ofNat))).worst5percent = idx := by
  rw [stdSort_unique _ _ (range_sorted n) (List.Perm.refl _)]
  show List.getD _ (percentileIndex double_0_95 (List.length _)) 0 = _
  rw [List.length_map, List.length_range, h, range_getD n idx hlt]

/-- The bound on the sample count is needed in the binary64 model: for 1185157796676461
samples (more than `2 ^ 50`, 8.4 PiB of samples) the product `0.95 * n` rounds up to the next
integer and the index is 1125899906842638, one above `floor(95 n / 100)`. -/
theorem percentile_index_rounds_up_beyond_bound :
    ((List.range 1185157796676461).map Int.ofNat).length = 1185157796676461
    ∧ percentileIndex double_0_95 1185157796676461 = 1125899906842638
    ∧ 95 * 1185157796676461 / 100 = 1125899906842637
    ∧ (computeStats (stdSort ((List.range 1185157796676461).map Int.ofNat))).worst5percent
        = ((1125899906842638 : ℕ) : ℤ)
    ∧ ((List.range 1185157796676461).map Int.ofNat).getD (95 * 1185157796676461 / 100) 0
        = ((1125899906842637 : ℕ) : ℤ)
    ∧ ((1125899906842638 : ℕ) : ℤ) ≠ ((1125899906842637 : ℕ) : ℤ) := by
  have hidx : percentileIndex double_0_95 1185157796676461 = 1125899906842638 := by
    rw [percentileIndex_eq _ _ (by norm_num), double_0_95_eq]
    have : roundDouble (4278419646001971 / 4503599627370496 * ((1185157796676461 : ℕ) : ℚ))
        = 1125899906842638 := by
      rw [roundDouble_eq _ 50 4503599627370552 (by norm_num) (by norm_num)
        (by rw [abs_lt]; constructor <;> norm_num)]
      norm_num
    rw [this]
    exact sizeOfDouble_eq _ 1125899906842638 (by norm_num) (by norm_num)
  have hdiv : 95 * 1185157796676461 / 100 = 1125899906842637 := by norm_num
  refine ⟨by rw [List.length_map, List.length_range], hidx, hdiv,
    range_worst5percent _ _ hidx (by norm_num), ?_, by norm_num⟩
  rw [hdiv]
  exact range_getD _ _ (by norm_num)

/-! ### The percentage of the comparison (C2) -/

theorem roundDouble_ofNat (n : ℕ) [n.AtLeastTwo] (h : n < 2 ^ 53) :
    roundDouble (OfNat.ofNat n : ℚ) = (OfNat.ofNat n : ℚ) := by
  have := roundDouble_natCast n h
  simpa using this

/-- The lines of C6 for the samples 30 ms, 10 ms and 20 ms: every value is scaled by
1000000 and shown in milliseconds. -/
theorem unit_selected_by_worst_witness :
    ∃ r evs,
      ProfilerObject.LogData
          { name := "X".toList, isTracking := false, startTime := 0,
            data := [30000000, 10000000, 20000000] }
          { isSaveOn := false, db := [], trace := [] } = some r
      ∧ r.2.trace = evs
      ∧ evs.filterMap Event.metricView
          = [(labelAverage, 20, " ms"), (labelMedian, 20, " ms"), (labelWorst, 30, " ms"),
             (labelBest, 10, " ms")] := by
  obtain ⟨r, evs, h1, h2, h3⟩ := (unit_selected_by_worst
    { name := "X".toList, isTracking := false, startTime := 0,
      data := [30000000, 10000000, 20000000] }
    { isSaveOn := false, db := [], trace := [] } 0 0 0).2.2.2.2
  refine ⟨r, evs, h1, by simpa using h2, ?_⟩
  have hne : ([30000000, 10000000, 20000000] : List Int) ≠ [] := by decide
  simp only [hne, if_false] at h3
  obtain ⟨-, -, hview, -⟩ := h3
  rw [hview]
  have hw : (computeStats (stdSort [30000000, 10000000, 20000000])).worst = 30000000 := by
    decide
  have ha : (computeStats (stdSort [30000000, 10000000, 20000000])).average = 20000000 := by
    decide
  have hm : (computeStats (stdSort [30000000, 10000000, 20000000])).median = 20000000 := by
    decide
  have hb : (computeStats (stdSort [30000000, 10000000, 20000000])).best = 10000000 := by
    decide
  have hu : selectUnit 30000000 = (" ms", 1000000) := by decide
  have r30 : roundDouble (30000000 : ℚ) = 30000000 := roundDouble_ofNat 30000000 (by norm_num)
  have r20 : roundDouble (20000000 : ℚ) = 20000000 := roundDouble_ofNat 20000000 (by norm_num)
  have r10 : roundDouble (10000000 : ℚ) = 10000000 := roundDouble_ofNat 10000000 (by norm_num)
  unfold reportLines
  rw [hw, ha, hm, hb, hu]
  simp only [List.length_cons, List.length_nil]
  norm_num [r30, r20, r10]
  exact ⟨roundDouble_ofNat 20 (by norm_num), roundDouble_ofNat 30 (by norm_num),
    roundDouble_ofNat 10 (by norm_num)⟩
